import Mathlib

/-
Verification development for the em-app-protocols content-acquisition and
indexing pipeline.  The Python sources under src/scrapers are shallowly
embedded as executable Lean definitions, faithful to the control flow of the
original functions; the theorems at the end of the file settle the frozen
specification claims against those definitions.

Modelling conventions:
  * Python str values are Lean String values; the handful of str methods the
    scrapers use (strip, split, startswith, the in operator, index, rstrip,
    lower, replace, join) are re-implemented below over the underlying char
    lists so that every definition is executable and kernel-reducible.
  * The BeautifulSoup DOM walk over a content container is modelled as a walk
    over a flat list of top-level children.  Each tag child carries, as data,
    the values the scrapers read from it: its tag name, its class list, its
    get_text(strip=True) text, the text assembled by the clean-text helper
    for non-heading children, its figcaption text, the texts of its anchor
    descendants, and the img tags found inside it.  Content nested below the
    top level is thereby abstracted into those attribute strings.
-/

namespace EmApp

/-! ## Python string semantics -/

/-- Whitespace characters stripped by the Python str.strip() default
(ASCII subset, which covers the scraped inputs). -/
def isPyWs (c : Char) : Bool :=
  c = ' ' || c = '\t' || c = '\n' || c = '\r' || c = '\x0b' || c = '\x0c'

/-- Python str.strip(): drop leading and trailing whitespace. -/
def pyStrip (s : String) : String :=
  ⟨((s.data.dropWhile isPyWs).reverse.dropWhile isPyWs).reverse⟩

/-- Python sep.join(parts). -/
def pyJoin (sep : String) : List String → String
  | [] => ""
  | [p] => p
  | p :: ps => p ++ sep ++ pyJoin sep ps

/-- Does the pattern occur as a contiguous sublist? Models the Python
in operator on strings (empty pattern always matches). -/
def subOccurs (pat : List Char) : List Char → Bool
  | [] => pat.isEmpty
  | c :: rest => pat.isPrefixOf (c :: rest) || subOccurs pat rest

/-- Python pat in s. -/
def pyContains (s pat : String) : Bool :=
  subOccurs pat.data s.data

/-- Python s.startswith(pat). -/
def pyStartsWith (s pat : String) : Bool :=
  pat.data.isPrefixOf s.data

/-- Characters strictly before the first occurrence of the pattern: models
s[:s.index(pat)] for a pattern that does occur in s. -/
def takeUntilSub (pat : List Char) : List Char → List Char
  | [] => []
  | c :: rest =>
    if pat.isPrefixOf (c :: rest) then [] else c :: takeUntilSub pat rest

/-- Python s[:s.index(pat)]. -/
def pyBeforeFirst (s pat : String) : String :=
  ⟨takeUntilSub pat.data s.data⟩

/-- Python re.sub of one or more whitespace characters by a single space,
followed by str.strip(): split into whitespace-free words and rejoin. -/
def pyNormalizeSpace (s : String) : String :=
  pyJoin (" ")
    ((((s.data.splitOnP isPyWs).filter (fun w => !w.isEmpty)).map
      (fun w => (⟨w⟩ : String))))

/-- Python s.rstrip(chars) for a single strip character. -/
def pyRstripChar (c : Char) (s : String) : String :=
  ⟨(s.data.reverse.dropWhile (fun x => x = c)).reverse⟩

/-- Python s.split(sep) for a one-character separator (keeps empty pieces). -/
def pySplitChar (c : Char) (s : String) : List String :=
  (s.data.splitOnP (fun x => x = c)).map (fun w => (⟨w⟩ : String))

/-- Python s.split() with no argument: split on whitespace runs, dropping
empty pieces. -/
def pySplitWs (s : String) : List String :=
  (((s.data.splitOnP isPyWs).filter (fun w => !w.isEmpty)).map
    (fun w => (⟨w⟩ : String)))

/-- Python s.lower() restricted to ASCII letters (enough for the URL and
class-name comparisons the scrapers perform). -/
def pyLower (s : String) : String :=
  ⟨s.data.map (fun c =>
    if 'A' ≤ c && c ≤ 'Z' then Char.ofNat (c.toNat + 32) else c)⟩

/-- Python s.replace(old, new) for one-character old and new. -/
def pyReplaceChar (old new : Char) (s : String) : String :=
  ⟨s.data.map (fun c => if c = old then new else c)⟩

/-- Python int(s) restricted to plain digit strings, as Option. -/
def pyToNat (s : String) : Option Nat :=
  if s.data ≠ [] && s.data.all Char.isDigit then
    some (s.data.foldl (fun acc c => acc * 10 + (c.toNat - 48)) 0)
  else none

/-- A string is truthy in Python when it is nonempty; maps an optional
attribute value to its truthy content. -/
def attrTruthy (a : Option String) : Option String :=
  match a with
  | some s => if s = "" then none else some s
  | none => none

/-! ## SHA-256

The scrapers compute a page content hash as
hashlib.sha256(text.encode()).hexdigest()[:16].  SHA-256 is embedded here
over Nat with explicit reduction modulo 2^32. -/

/-- Modulus for 32-bit words. -/
def M32 : Nat := 4294967296

/-- Addition modulo 2^32. -/
def add32 (a b : Nat) : Nat := (a + b) % M32

/-- Right rotation of a 32-bit word. -/
def rotr32 (n x : Nat) : Nat := (x >>> n) ||| ((x <<< (32 - n)) % M32)

/-- SHA-256 choose function. -/
def shaCh (x y z : Nat) : Nat := (x &&& y) ^^^ ((x ^^^ 4294967295) &&& z)

/-- SHA-256 majority function. -/
def shaMaj (x y z : Nat) : Nat := (x &&& y) ^^^ (x &&& z) ^^^ (y &&& z)

/-- SHA-256 big sigma 0. -/
def bsig0 (x : Nat) : Nat := rotr32 2 x ^^^ rotr32 13 x ^^^ rotr32 22 x

/-- SHA-256 big sigma 1. -/
def bsig1 (x : Nat) : Nat := rotr32 6 x ^^^ rotr32 11 x ^^^ rotr32 25 x

/-- SHA-256 small sigma 0. -/
def ssig0 (x : Nat) : Nat := rotr32 7 x ^^^ rotr32 18 x ^^^ (x >>> 3)

/-- SHA-256 small sigma 1. -/
def ssig1 (x : Nat) : Nat := rotr32 17 x ^^^ rotr32 19 x ^^^ (x >>> 10)

/-- SHA-256 round constants. -/
def shaK : List Nat := [
  1116352408, 1899447441, 3049323471,
  3921009573, 961987163, 1508970993,
  2453635748, 2870763221, 3624381080,
  310598401, 607225278, 1426881987,
  1925078388, 2162078206, 2614888103,
  3248222580, 3835390401, 4022224774,
  264347078, 604807628, 770255983,
  1249150122, 1555081692, 1996064986,
  2554220882, 2821834349, 2952996808,
  3210313671, 3336571891, 3584528711,
  113926993, 338241895, 666307205,
  773529912, 1294757372, 1396182291,
  1695183700, 1986661051, 2177026350,
  2456956037, 2730485921, 2820302411,
  3259730800, 3345764771, 3516065817,
  3600352804, 4094571909, 275423344,
  430227734, 506948616, 659060556,
  883997877, 958139571, 1322822218,
  1537002063, 1747873779, 1955562222,
  2024104815, 2227730452, 2361852424,
  2428436474, 2756734187, 3204031479,
  3329325298]

/-- SHA-256 initial hash values. -/
def shaH0 : List Nat := [
  1779033703, 3144134277, 1013904242,
  2773480762, 1359893119, 2600822924,
  528734635, 1541459225]

/-- Big-endian byte rendering of a message length, eight bytes. -/
def beBytes8 (n : Nat) : List Nat :=
  (List.range 8).map (fun i => (n >>> ((7 - i) * 8)) &&& 255)

/-- SHA-256 message padding: a 0x80 byte, zeros to 56 mod 64, then the
bit length, big-endian. -/
def padMessage (msg : List Nat) : List Nat :=
  msg ++ [128] ++ List.replicate ((55 + 64 - msg.length % 64) % 64) 0
      ++ beBytes8 (msg.length * 8)

/-- Pack bytes into big-endian 32-bit words. -/
def bytesToWords : List Nat → List Nat
  | b0 :: b1 :: b2 :: b3 :: rest =>
    (((b0 * 256 + b1) * 256 + b2) * 256 + b3) :: bytesToWords rest
  | _ => []

/-- One message-schedule extension step. -/
def scheduleStep (w : Array Nat) : Array Nat :=
  w.push (add32 (add32 (ssig1 (w.getD (w.size - 2) 0)) (w.getD (w.size - 7) 0))
    (add32 (ssig0 (w.getD (w.size - 15) 0)) (w.getD (w.size - 16) 0)))

/-- The 64-entry message schedule from the 16 block words. -/
def fullSchedule (w16 : List Nat) : Array Nat :=
  (List.range 48).foldl (fun w _ => scheduleStep w) w16.toArray

/-- Working variables of the SHA-256 compression loop. -/
structure ShaState where
  a : Nat
  b : Nat
  c : Nat
  d : Nat
  e : Nat
  f : Nat
  g : Nat
  h : Nat

/-- One compression round. -/
def shaRound (st : ShaState) (kw : Nat × Nat) : ShaState :=
  let t1 := add32 st.h (add32 (bsig1 st.e) (add32 (shaCh st.e st.f st.g) (add32 kw.1 kw.2)))
  let t2 := add32 (bsig0 st.a) (shaMaj st.a st.b st.c)
  ⟨add32 t1 t2, st.a, st.b, st.c, add32 st.d t1, st.e, st.f, st.g⟩

/-- Compress one 64-byte block into the running hash values. -/
def compressBlock (hs : List Nat) (block : List Nat) : List Nat :=
  let w := fullSchedule (bytesToWords block)
  let st0 : ShaState :=
    ⟨hs.getD 0 0, hs.getD 1 0, hs.getD 2 0, hs.getD 3 0,
     hs.getD 4 0, hs.getD 5 0, hs.getD 6 0, hs.getD 7 0⟩
  let st := (shaK.zip w.toList).foldl shaRound st0
  [add32 (hs.getD 0 0) st.a, add32 (hs.getD 1 0) st.b,
   add32 (hs.getD 2 0) st.c, add32 (hs.getD 3 0) st.d,
   add32 (hs.getD 4 0) st.e, add32 (hs.getD 5 0) st.f,
   add32 (hs.getD 6 0) st.g, add32 (hs.getD 7 0) st.h]

/-- Split a byte list into 64-byte blocks (fuel-driven recursion). -/
def chunks64 : Nat → List Nat → List (List Nat)
  | 0, _ => []
  | _, [] => []
  | fuel + 1, l => l.take 64 :: chunks64 fuel (l.drop 64)

/-- SHA-256 of a byte list, as eight 32-bit words. -/
def sha256Words (msg : List Nat) : List Nat :=
  let padded := padMessage msg
  (chunks64 padded.length padded).foldl compressBlock shaH0

/-- UTF-8 encoding of one char, as bytes (models Python str.encode). -/
def utf8EncodeChar (c : Char) : List Nat :=
  let n := c.toNat
  if n < 128 then [n]
  else if n < 2048 then [192 + n / 64, 128 + n % 64]
  else if n < 65536 then [224 + n / 4096, 128 + (n / 64) % 64, 128 + n % 64]
  else [240 + n / 262144, 128 + (n / 4096) % 64, 128 + (n / 64) % 64, 128 + n % 64]

/-- UTF-8 encoding of a string, as bytes. -/
def utf8Encode (s : String) : List Nat :=
  (s.data.map utf8EncodeChar).flatten

/-- Lower-case hex digit for a nibble. -/
def hexDigit (n : Nat) : Char :=
  if n < 10 then Char.ofNat (48 + n) else Char.ofNat (87 + n)

/-- Eight-hex-digit rendering of a 32-bit word. -/
def word32Hex (w : Nat) : String :=
  ⟨(List.range 8).map (fun i => hexDigit ((w >>> ((7 - i) * 4)) &&& 15))⟩

/-- Hex digest of a word list. -/
def hexDigestStr (ws : List Nat) : String :=
  pyJoin ("") (ws.map word32Hex)

/-- First n characters of a string (Python slicing s[:n]). -/
def strTake (n : Nat) (s : String) : String :=
  ⟨s.data.take n⟩

/-- The content-hash helper shared by the scrapers:
hashlib.sha256(text.encode()).hexdigest()[:16]. -/
def contentHashFn (text : String) : String :=
  strTake 16 (hexDigestStr (sha256Words (utf8Encode text)))

/-! ## DOM model

A content container is a flat list of top-level children.  A tag child
carries the attribute values the scrapers read from it; nested markup is
abstracted into those values (see the header comment). -/

/-- Data of one img tag, as read by the image extractors: the attributes
consulted by the URL priority chain, the size attribute, and the metadata
fields.  The titleAttr field holds the html-unescaped value of
data-image-title (or title), and parentFigcaptionText the text of the
figcaption of the img tag's enclosing figure, when there is one. -/
structure ImgTag where
  dataOrigFile : Option String := none
  dataLazySrc : Option String := none
  srcset : Option String := none
  src : Option String := none
  widthAttr : Option String := none
  altAttr : String := ""
  titleAttr : String := ""
  parentFigcaptionText : Option String := none
deriving Repr, DecidableEq

/-- Attribute data of one top-level tag child. -/
structure TagData where
  /-- tag name, for example h2, p, div, figure, noscript -/
  name : String
  /-- class attribute values -/
  classes : List String := []
  /-- child.get_text(strip=True) of the whole element -/
  getText : String := ""
  /-- text assembled by the clean-text helper for a non-heading child
  (list items, table markdown, quoted lines); empty when the element
  yields no text -/
  cleanText : String := ""
  /-- get_text of a figcaption child element, when one exists -/
  figcaptionText : Option String := none
  /-- get_text values of anchor descendants that carry an href -/
  anchorTexts : List String := []
  /-- the img tags found inside this child (the child itself when it is an
  img tag, else its descendants in document order) -/
  imgTags : List ImgTag := []
deriving Repr, DecidableEq

/-- One top-level child of the content container: a loose text node
(NavigableString, with a flag marking html comments whose text contains
ezoic, case-insensitively) or a tag with its attribute data. -/
inductive Child
  | textNode (s : String) (ezoicComment : Bool)
  | tag (d : TagData)
deriving Repr, DecidableEq

/-- Heading tag names recognised by the section walks. -/
def headingNames : List String := ["h2", "h3", "h4", "h5", "h6"]

/-- Numeric level of a heading tag name: int(child.name[1]). -/
def headingDigit (name : String) : Nat :=
  (pyToNat ⟨name.data.drop 1⟩).getD 0

/-- One extracted section record: heading, level, content, order. -/
structure SectionRec where
  heading : String
  level : Nat
  content : String
  order : Nat
deriving Repr, DecidableEq

/-! ## LITFL scraper (litfl_scraper.py) -/

/-- CSS classes stripped by the LITFL scraper before extraction. -/
def litflStripClasses : List String :=
  ["m-a-box", "litfl-medmastery", "wp-block-cover", "gb-block-cta",
   "comment-respond", "comments-area", "sharedaddy", "jp-relatedposts"]

/-- Ad classes stripped by the LITFL scraper. -/
def litflAdClasses : List String := ["advads", "litfl-target"]

/-- Class match as performed by the scrapers: the pattern occurs as a
substring of the space-joined class list. -/
def classMatches (cls : String) (classes : List String) : Bool :=
  pyContains (pyJoin (" ") classes) cls

/-- Is this child removed by the LITFL noise strip? (noscript tags, the
strip classes, and the ad classes). -/
def litflIsNoise (c : Child) : Bool :=
  match c with
  | .textNode _ _ => false
  | .tag d =>
    d.name = "noscript"
      || litflStripClasses.any (fun cls => classMatches cls d.classes)
      || litflAdClasses.any (fun cls => classMatches cls d.classes)

/-- LITFL strip-noise pass over the top-level children (the in-place
decompose calls of the source, applied to the container's children). -/
def litflStripNoise (children : List Child) : List Child :=
  children.filter (fun c => !litflIsNoise c)

/-- Flush of the accumulated section parts: join with newlines, strip, and
append a section record carrying the next 1-based order when nonempty. -/
def flushSection (sections : List SectionRec) (heading : String) (level : Nat)
    (parts : List String) : List SectionRec :=
  let text := pyStrip (pyJoin ("\n") parts)
  if text = "" then sections
  else sections ++ [{ heading := heading, level := level, content := text,
                      order := sections.length + 1 }]

/-- The LITFL section walk: accumulate text under the most recent heading,
emitting one section per heading transition.  Content before the first
heading falls under the default heading Introduction at level 2.  When a
heading's normalized text is empty the source keeps the previous heading
and, notably, does not reset the accumulated parts. -/
def litflSectionsGo : List Child → List SectionRec → String → Nat →
    List String → List SectionRec
  | [], sections, h, lvl, parts => flushSection sections h lvl parts
  | c :: rest, sections, h, lvl, parts =>
    match c with
    | .textNode s _ =>
      let t := pyStrip s
      if t = "" then litflSectionsGo rest sections h lvl parts
      else litflSectionsGo rest sections h lvl (parts ++ [t])
    | .tag d =>
      if d.name ∈ headingNames then
        let sections2 := flushSection sections h lvl parts
        let ht := pyNormalizeSpace d.getText
        if ht = "" then litflSectionsGo rest sections2 h lvl parts
        else litflSectionsGo rest sections2 ht (headingDigit d.name) []
      else if d.name = "figure" then
        match d.figcaptionText with
        | some cap =>
          if cap = "" then litflSectionsGo rest sections h lvl parts
          else litflSectionsGo rest sections h lvl
            (parts ++ ["[Image: " ++ cap ++ "]"])
        | none => litflSectionsGo rest sections h lvl parts
      else
        if d.cleanText = "" then litflSectionsGo rest sections h lvl parts
        else litflSectionsGo rest sections h lvl (parts ++ [d.cleanText])

/-- LITFL section extraction over a (noise-stripped) container. -/
def litflExtractSections (children : List Child) : List SectionRec :=
  litflSectionsGo children [] ("Introduction") 2 []

/-- Blank-line join of the section contents, as used to compute the content
hash of a page. -/
def joinSectionContents (sections : List SectionRec) : String :=
  pyJoin ("\n\n") (sections.map (fun s => s.content))

/-- The claim-relevant fields of the normalized document built by the
extract-page functions. -/
structure ExtractedDoc where
  slug : String
  url : String
  title : String
  author : String
  dateModified : Option String
  lastScraped : String
  contentHash : String
  sections : List SectionRec
deriving Repr, DecidableEq

/-- The LITFL extract_page pipeline from the located content container on:
strip noise, extract sections, fail when no section text was produced, and
otherwise build the document whose content hash is the hash of the
blank-line-joined section contents.  The page metadata (title, author,
modification date) and the scrape timestamp are inputs, extracted upstream
from page markup; contentDiv is none when no content container was found. -/
def litflExtractPage (slug title author : String) (dateModified : Option String)
    (now : String) (contentDiv : Option (List Child)) : Option ExtractedDoc :=
  match contentDiv with
  | none => none
  | some children =>
    let stripped := litflStripNoise children
    let sections := litflExtractSections stripped
    if sections = [] then none
    else some
      { slug := slug
        url := "https://litfl.com/" ++ slug ++ "/"
        title := title
        author := author
        dateModified := dateModified
        lastScraped := now
        contentHash := contentHashFn (joinSectionContents sections)
        sections := sections }

/-! ## REBEL EM scraper (rebelem_scraper.py) -/

/-- Strings that indicate the end of clinical content. -/
def CONTENT_END_MARKERS : List String :=
  ["WANT TO SUPPORT REBELEM?",
   "Guest Post By:",
   "Post-Peer Reviewed By:",
   "Cite this article as:",
   "Written by "]

/-- Does the text contain any content-end marker? -/
def containsAnyMarker (t : String) : Bool :=
  CONTENT_END_MARKERS.any (fun m => pyContains t m)

/-- Does the text start with a content-end marker? -/
def startsWithMarker (t : String) : Bool :=
  CONTENT_END_MARKERS.any (fun m => pyStartsWith t m)

/-- Marker truncation inside the REBEL EM flush: scan the marker list in
order and cut the text at the index of the first listed marker it contains,
then strip. -/
def truncateAtMarker (text : String) : String :=
  match CONTENT_END_MARKERS.find? (fun m => pyContains text m) with
  | some m => pyStrip (pyBeforeFirst text m)
  | none => text

/-- REBEL EM flush: join, strip, truncate at a content-end marker, and
append a section record when text remains. -/
def rebelemFlush (sections : List SectionRec) (heading : String) (level : Nat)
    (parts : List String) : List SectionRec :=
  let text := pyStrip (pyJoin ("\n") parts)
  if text = "" then sections
  else
    let text2 := truncateAtMarker text
    if text2 = "" then sections
    else sections ++ [{ heading := heading, level := level, content := text2,
                        order := sections.length + 1 }]

/-- get_text(strip=True) of a child tag, as consulted by the REBEL EM
content-end checks. -/
def childGetText (d : TagData) : String := d.getText

/-- The REBEL EM section walk.  It differs from the LITFL walk in that a
loose text node containing a marker, or a tag whose text starts with a
marker, stops the walk (the final flush still runs), headings have trailing
colons stripped, and the flush truncates at content-end markers. -/
def rebelemSectionsGo : List Child → List SectionRec → String → Nat →
    List String → List SectionRec
  | [], sections, h, lvl, parts => rebelemFlush sections h lvl parts
  | c :: rest, sections, h, lvl, parts =>
    match c with
    | .textNode s _ =>
      let t := pyStrip s
      if t = "" then rebelemSectionsGo rest sections h lvl parts
      else if containsAnyMarker t then rebelemFlush sections h lvl parts
      else rebelemSectionsGo rest sections h lvl (parts ++ [t])
    | .tag d =>
      if startsWithMarker (childGetText d) then rebelemFlush sections h lvl parts
      else if d.name ∈ headingNames then
        let sections2 := rebelemFlush sections h lvl parts
        let ht := pyRstripChar ':' (pyNormalizeSpace d.getText)
        if ht = "" then rebelemSectionsGo rest sections2 h lvl parts
        else rebelemSectionsGo rest sections2 ht (headingDigit d.name) []
      else if d.name = "figure" then
        match d.figcaptionText with
        | some cap =>
          if cap = "" then rebelemSectionsGo rest sections h lvl parts
          else rebelemSectionsGo rest sections h lvl
            (parts ++ ["[Image: " ++ cap ++ "]"])
        | none => rebelemSectionsGo rest sections h lvl parts
      else
        if d.cleanText = "" then rebelemSectionsGo rest sections h lvl parts
        else rebelemSectionsGo rest sections h lvl (parts ++ [d.cleanText])

/-- REBEL EM section extraction over a (noise-stripped) container. -/
def rebelemExtractSections (children : List Child) : List SectionRec :=
  rebelemSectionsGo children [] ("Introduction") 2 []

/-- URL substrings of images the REBEL EM scraper always filters out. -/
def rebelemFilterImageUrls : List String :=
  ["rebelem-logo", "rebel-em-logo", "cropped-rebel", "gravatar.com",
   "rosh-review", "woocommerce", "ad-space", "rebel_logo", "rebel-favicon",
   "hippo-education", "wp-content/uploads/rebel", "amazon-associates",
   "patreon", "paypal", "donate-button", "subscribe-button"]

/-- Should an image URL be filtered out (logos, ads, icons)?  Empty URLs
and svg placeholder data URIs are also filtered; the pattern match is
case-insensitive. -/
def rebelemShouldFilterImage (url : String) : Bool :=
  if url = "" then true
  else if rebelemFilterImageUrls.any
    (fun pat => pyContains (pyLower url) (pyLower pat)) then true
  else if pyStartsWith url ("data:image/svg+xml") then true
  else false

/-- Largest candidate of a srcset attribute: split on commas, then on
whitespace; a piece with at least two tokens contributes its URL under the
numeric width of its second token with a trailing w stripped; keep the
strictly largest unfiltered candidate. -/
def rebelemBestSrcset (srcset : String) : Option String :=
  let pieces := (pySplitChar ',' srcset).map pyStrip
  let best := pieces.foldl (fun acc part =>
    match pySplitWs part with
    | candidateUrl :: widthTok :: _ =>
      match pyToNat (pyRstripChar 'w' widthTok) with
      | some w =>
        if w > acc.2 && !rebelemShouldFilterImage candidateUrl then
          (some candidateUrl, w)
        else acc
      | none => acc
    | _ => acc) ((none : Option String), 0)
  best.1

/-- Best image URL of an img tag, by the REBEL EM priority chain:
data-orig-file, then data-lazy-src, then the largest srcset entry, then a
plain src that is not a data URI.  A present-but-filtered attribute falls
through to the next one. -/
def rebelemGetImageUrl (img : ImgTag) : Option String :=
  match attrTruthy img.dataOrigFile with
  | some url =>
    if !rebelemShouldFilterImage url then some url
    else rebelemGetImageUrlLazy img
  | none => rebelemGetImageUrlLazy img
where
  /-- data-lazy-src step of the chain -/
  rebelemGetImageUrlLazy (img : ImgTag) : Option String :=
    match attrTruthy img.dataLazySrc with
    | some url =>
      if !rebelemShouldFilterImage url then some url
      else rebelemGetImageUrlSrcset img
    | none => rebelemGetImageUrlSrcset img
  /-- srcset step of the chain -/
  rebelemGetImageUrlSrcset (img : ImgTag) : Option String :=
    match attrTruthy img.srcset with
    | some ss =>
      match rebelemBestSrcset ss with
      | some best => some best
      | none => rebelemGetImageUrlSrc img
    | none => rebelemGetImageUrlSrc img
  /-- plain src step of the chain -/
  rebelemGetImageUrlSrc (img : ImgTag) : Option String :=
    match attrTruthy img.src with
    | some url =>
      if !pyStartsWith url ("data:") && !rebelemShouldFilterImage url then some url
      else none
    | none => none

/-- One extracted image record. -/
structure ImageRec where
  url : String
  alt : String
  title : String
  caption : String
  label : String
  sectionHeading : String
  filename : String
deriving Repr, DecidableEq

/-- Python url.split(sep)[-1] for a one-character separator. -/
def lastPiece (c : Char) (s : String) : String :=
  (pySplitChar c s).getLast?.getD s

/-- Python filename.rsplit(sep, 1)[0] for a one-character separator: drop
everything from the last separator on, when one occurs. -/
def beforeLastPiece (c : Char) (s : String) : String :=
  let pieces := pySplitChar c s
  if pieces.length ≤ 1 then s else pyJoin (⟨[c]⟩) pieces.dropLast

/-- Build the record for one accepted img tag of the REBEL EM image walk. -/
def rebelemImageRec (url curSection : String) (img : ImgTag) : ImageRec :=
  let caption := (img.parentFigcaptionText).getD ""
  let filename := if pyContains url ("/") then
    pyBeforeFirst (lastPiece '/' url) ("?") else ""
  let label :=
    if img.titleAttr ≠ "" then img.titleAttr
    else if img.altAttr ≠ "" then img.altAttr
    else if caption ≠ "" then caption
    else pyReplaceChar '-' ' ' (beforeLastPiece '.' filename)
  { url := url, alt := img.altAttr, title := img.titleAttr,
    caption := caption, label := label, sectionHeading := curSection,
    filename := filename }

/-- Process the img tags found inside one child: resolve the URL, skip
filtered and already-seen base URLs, skip tiny icons below the 50px width
threshold, and append a record tagged with the current section heading. -/
def rebelemProcessImgs (curSection : String) :
    List ImgTag → List ImageRec → List String → List ImageRec × List String
  | [], imgs, seen => (imgs, seen)
  | img :: rest, imgs, seen =>
    match rebelemGetImageUrl img with
    | none => rebelemProcessImgs curSection rest imgs seen
    | some url =>
      let baseUrl := pyBeforeFirst url ("?")
      if seen.contains baseUrl then rebelemProcessImgs curSection rest imgs seen
      else
        let seen2 := seen ++ [baseUrl]
        let tiny : Bool := match attrTruthy img.widthAttr with
          | some w => match pyToNat w with
            | some n => decide (n < 50)
            | none => false
          | none => false
        if tiny then rebelemProcessImgs curSection rest imgs seen2
        else rebelemProcessImgs curSection rest
          (imgs ++ [rebelemImageRec url curSection img]) seen2

/-- The REBEL EM image walk: skip loose text, stop at the first tag whose
text starts with a content-end marker, track the current section heading
through heading tags (which contribute no images), and collect the images
of every other child. -/
def rebelemImagesGo : List Child → List ImageRec → String → List String →
    List ImageRec
  | [], imgs, _, _ => imgs
  | c :: rest, imgs, curSection, seen =>
    match c with
    | .textNode _ _ => rebelemImagesGo rest imgs curSection seen
    | .tag d =>
      if startsWithMarker (childGetText d) then imgs
      else if d.name ∈ headingNames then
        let ht := pyRstripChar ':' (pyNormalizeSpace d.getText)
        rebelemImagesGo rest imgs (if ht = "" then curSection else ht) seen
      else
        let (imgs2, seen2) := rebelemProcessImgs curSection d.imgTags imgs seen
        rebelemImagesGo rest imgs2 curSection seen2

/-- REBEL EM image extraction over a (noise-stripped) container. -/
def rebelemExtractImages (children : List Child) : List ImageRec :=
  rebelemImagesGo children [] ("Introduction") []

/-- CSS classes stripped by the REBEL EM scraper before extraction. -/
def rebelemStripClasses : List String :=
  ["elementor-widget-nav-menu", "elementor-widget-sidebar", "cookie-consent",
   "woocommerce", "sharedaddy", "jp-relatedposts", "post-navigation",
   "comments-area", "comment-respond", "elementor-location-footer",
   "elementor-widget-theme-post-navigation", "ad-space", "ezoic",
   "ez-video-wrap"]

/-- Is this child removed by step 4 of the REBEL EM noise strip (the first
guest-post or citation block, together with its following tag siblings)? -/
def rebelemIsGuestPostEl (c : Child) : Bool :=
  match c with
  | .textNode _ _ => false
  | .tag d =>
    (["h1", "h2", "h3", "h4", "h5", "p", "div"].contains d.name)
      && (pyStartsWith d.getText ("Guest Post By:")
          || pyStartsWith d.getText ("Cite this article as:"))

/-- Step 4 of the REBEL EM noise strip: remove the first guest-post or
citation element and every following tag sibling (loose text siblings are
not tags and survive the find_next_siblings pass), then stop. -/
def rebelemStripGuestPost : List Child → List Child
  | [] => []
  | c :: rest =>
    if rebelemIsGuestPostEl c then
      rest.filter (fun x => match x with | .textNode _ _ => true | .tag _ => false)
    else c :: rebelemStripGuestPost rest

/-- The REBEL EM strip-noise pass over the top-level children, in source
order: noscript tags; the strip classes; WANT TO SUPPORT REBELEM blocks
(h3/h4/h5/div whose text starts with that phrase); the guest-post or
citation block and everything after it; ad classes; children holding a
donation or shop anchor (the anchor's parent is decomposed, modelled here
at the level of the top-level child containing the anchor); ezoic classes
(case-insensitive); and comment nodes mentioning ezoic. -/
def rebelemStripNoise (children : List Child) : List Child :=
  let s1 := children.filter (fun c => match c with
    | .textNode _ _ => true
    | .tag d => !(d.name = "noscript"))
  let s2 := s1.filter (fun c => match c with
    | .textNode _ _ => true
    | .tag d => !(rebelemStripClasses.any (fun cls => classMatches cls d.classes)))
  let s3 := s2.filter (fun c => match c with
    | .textNode _ _ => true
    | .tag d => !((["h5", "h4", "h3", "div"].contains d.name)
        && pyStartsWith d.getText ("WANT TO SUPPORT REBELEM")))
  let s4 := rebelemStripGuestPost s3
  let s5 := s4.filter (fun c => match c with
    | .textNode _ _ => true
    | .tag d => !((["ad-space", "donate", "swag"] : List String).any
        (fun cls => classMatches cls d.classes)))
  let s6 := s5.filter (fun c => match c with
    | .textNode _ _ => true
    | .tag d => !(d.anchorTexts.any
        (fun t => (["AD SPACE", "DONATE", "SWAG"] : List String).contains t)))
  let s7 := s6.filter (fun c => match c with
    | .textNode _ _ => true
    | .tag d => !(classMatches ("ezoic") (d.classes.map pyLower)))
  s7.filter (fun c => match c with
    | .textNode _ ez => !ez
    | .tag _ => true)

/-- The REBEL EM extract_page pipeline from the located content container
on: strip noise, extract images and sections, fail when no section text was
produced, and otherwise build the document from the post-strip,
post-truncation sections.  The document carries the extracted images. -/
structure RebelemDoc where
  slug : String
  url : String
  title : String
  author : String
  lastScraped : String
  contentHash : String
  sections : List SectionRec
  images : List ImageRec
deriving Repr, DecidableEq

/-- REBEL EM extract_page from the content container on (metadata and the
scrape timestamp are inputs, extracted upstream from page markup). -/
def rebelemExtractPage (slug title author now : String)
    (contentDiv : Option (List Child)) : Option RebelemDoc :=
  match contentDiv with
  | none => none
  | some children =>
    let stripped := rebelemStripNoise children
    let images := rebelemExtractImages stripped
    let sections := rebelemExtractSections stripped
    if sections = [] then none
    else some
      { slug := slug
        url := "https://rebelem.com/" ++ slug ++ "/"
        title := title
        author := author
        lastScraped := now
        contentHash := contentHashFn (joinSectionContents sections)
        sections := sections
        images := images }

/-! ## PMC discovery (pmc_discovery.py) -/

/-- One discovered PMC article: its PMCID key and the journal it was
discovered from (the first-seen source classification). -/
structure PmcArticle where
  pmcid : String
  journal : String
deriving Repr, DecidableEq

/-- The deduplication loop of run_discovery: walk the concatenated article
lists, keeping an article when its PMCID has not been seen yet. -/
def dedupArticlesGo (seen : List String) : List PmcArticle → List PmcArticle
  | [] => []
  | a :: rest =>
    if seen.contains a.pmcid then dedupArticlesGo seen rest
    else a :: dedupArticlesGo (a.pmcid :: seen) rest

/-- Deduplicate discovered articles by PMCID, keeping first occurrence. -/
def dedupArticles (articles : List PmcArticle) : List PmcArticle :=
  dedupArticlesGo [] articles

/-! ## LITFL discovery (litfl_discovery.py) -/

/-- One discovered LITFL url entry. -/
structure LitflUrlEntry where
  url : String
  slug : String
  lastmod : Option String
  source : String
deriving Repr, DecidableEq

/-- String comparison on code points, models Python sorting of str. -/
def charListLe : List Char → List Char → Bool
  | [], _ => true
  | _ :: _, [] => false
  | a :: as_, b :: bs =>
    if a.toNat < b.toNat then true
    else if b.toNat < a.toNat then false
    else charListLe as_ bs

/-- Insertion of a string into a sorted list. -/
def insertSorted (x : String) : List String → List String
  | [] => [x]
  | y :: ys =>
    if charListLe x.data y.data then x :: y :: ys else y :: insertSorted x ys

/-- Sort a string list ascending (models Python sorted). -/
def sortStrings (l : List String) : List String :=
  l.foldr insertSorted []

/-- Distinct values of a string list (first occurrences, models building a
Python set from a list as far as its element collection goes). -/
def distinctStrings : List String → List String
  | [] => []
  | x :: rest =>
    if rest.contains x then distinctStrings rest else x :: distinctStrings rest

/-- The simple slug list written by LITFLDiscovery.save_discovery alongside
the manifest: sorted(set(slug for entry in urls)). -/
def litflSlugList (urls : List LitflUrlEntry) : List String :=
  sortStrings (distinctStrings (urls.map (fun e => e.slug)))

/-! ## Progress tracker and bulk orchestration (litfl_bulk_scrape.py) -/

/-- One recorded error: message and timestamp. -/
structure ErrorRec where
  message : String
  timestamp : String
deriving Repr, DecidableEq

/-- Aggregate counters of the progress tracker. -/
structure ProgressStats where
  total : Nat := 0
  completedCount : Nat := 0
  errorsCount : Nat := 0
  skipped : Nat := 0
  imagesDownloaded : Nat := 0
deriving Repr, DecidableEq

/-- The progress tracker state: completed slugs (a set, kept as a
duplicate-free list in insertion order), the error map (an association
list with unique keys, insertion order), and the counters. -/
structure ProgressTracker where
  completed : List String := []
  errors : List (String × ErrorRec) := []
  stats : ProgressStats := {}
deriving Repr, DecidableEq

/-- Membership add for the completed set (set.add). -/
def insertAbsent (l : List String) (x : String) : List String :=
  if l.contains x then l else l ++ [x]

/-- Dict upsert for the error map. -/
def upsertError (es : List (String × ErrorRec)) (k : String) (v : ErrorRec) :
    List (String × ErrorRec) :=
  if es.any (fun p => p.1 = k) then
    es.map (fun p => if p.1 = k then (k, v) else p)
  else es ++ [(k, v)]

/-- ProgressTracker.mark_completed: add the slug to the completed set and
bump the counters.  The error map is not touched. -/
def markCompleted (t : ProgressTracker) (slug : String) (imageCount : Nat) :
    ProgressTracker :=
  { t with
    completed := insertAbsent t.completed slug
    stats := { t.stats with
      completedCount := t.stats.completedCount + 1
      imagesDownloaded := t.stats.imagesDownloaded + imageCount } }

/-- ProgressTracker.mark_error: record the error under the slug and bump
the error counter. -/
def markError (t : ProgressTracker) (slug : String) (msg ts : String) :
    ProgressTracker :=
  { t with
    errors := upsertError t.errors slug { message := msg, timestamp := ts }
    stats := { t.stats with errorsCount := t.stats.errorsCount + 1 } }

/-- ProgressTracker.is_completed. -/
def isCompleted (t : ProgressTracker) (slug : String) : Bool :=
  t.completed.contains slug

/-- The dispatch-time clearing of old errors for retried slugs in main:
for each slug of the retry list, delete its entry from the error map. -/
def clearRetriedErrors (t : ProgressTracker) (slugs : List String) :
    ProgressTracker :=
  { t with errors :=
      (slugs.foldl (fun es slug => es.filter (fun p => !(p.1 = slug))) t.errors) }

/-- Keys of the error map. -/
def errorKeys (t : ProgressTracker) : List String :=
  t.errors.map (fun p => p.1)

/-- The dispatch plan of main: in retry-errors mode the dispatch list is
the current error-key list and those errors are cleared; otherwise it is
the manifest slug list.  In resume mode without force, completed slugs are
then filtered out.  Returns the dispatch list and the tracker after the
clearing. -/
def planDispatch (retryErrors resume force : Bool) (manifest : List String)
    (t : ProgressTracker) : List String × ProgressTracker :=
  let (base, t2) :=
    if retryErrors then (errorKeys t, clearRetriedErrors t (errorKeys t))
    else (manifest, t)
  let slugs :=
    if resume && !force then base.filter (fun s => !isCompleted t2 s)
    else base
  (slugs, t2)

/-- The result-handling loop of main over the dispatched slugs: a
successful scrape is marked completed with its image count, a failed one
is marked as an error. -/
def runBulk (outcome : String → Bool) (imageCount : String → Nat)
    (errMsg ts : String) (slugs : List String) (t : ProgressTracker) :
    ProgressTracker :=
  slugs.foldl (fun tr s =>
    if outcome s then markCompleted tr s (imageCount s)
    else markError tr s errMsg ts) t

/-! ## Progress save to disk (ProgressTracker.save) -/

/-- The serialized progress record written by save: last_saved timestamp,
the stats, and the sorted completed slugs.  Models the deterministic
json.dump rendering of the save data dict. -/
def renderProgress (t : ProgressTracker) (lastSaved : String) : String :=
  "\x7b\"last_saved\": \"" ++ lastSaved ++ "\", \"stats\": \x7b\"completed\": "
    ++ toString t.stats.completedCount ++ ", \"errors\": "
    ++ toString t.stats.errorsCount ++ ", \"skipped\": "
    ++ toString t.stats.skipped ++ ", \"images_downloaded\": "
    ++ toString t.stats.imagesDownloaded ++ "\x7d, \"completed_slugs\": ["
    ++ pyJoin (", ") ((sortStrings t.completed).map
        (fun s => "\"" ++ s ++ "\"")) ++ "]\x7d"

/-- Disk outcome of one save call: the content after an uninterrupted run,
and every content the file can hold if the process crashes at some point
during the call. -/
structure SaveOutcome where
  final : String
  crashStates : List String
deriving Repr, DecidableEq

/-- The write performed by ProgressTracker.save: open(file, w) followed by
json.dump.  Opening with mode w truncates the file at once, and the dump
streams the serialization, so a crash can leave the old content (crash
before the open) or any prefix of the new content, including the empty
truncated file. -/
def directWriteSave (oldContent newContent : String) : SaveOutcome :=
  { final := newContent
    crashStates := oldContent ::
      ((List.range (newContent.data.length + 1)).map
        (fun k => ((⟨newContent.data.take k⟩ : String)))) }

/-- Modelled from the spec: a save that writes the full state to a
temporary file and then renames it over the record, so an interrupted save
leaves either the previous or the new complete content and nothing else. -/
def atomicSaveSpec (oldContent newContent : String) : SaveOutcome :=
  { final := newContent
    crashStates := [oldContent, newContent] }

/-! ## Concurrent tracker updates (thread pool workers)

The LITFL ProgressTracker advertises itself as thread-safe but holds no
lock.  Its mark_completed body runs three statements against shared state:
the set add, and two read-modify-write counter updates.  The interleaving
model below gives each worker the set add followed by the read and the
write of the completed counter (the granularity at which the CPython
interpreter can switch threads between bytecodes). -/

/-- One atomic step of an unsynchronized mark_completed call. -/
inductive TrkStep
  | addSlug (s : String)
  | readCtr
  | writeCtrFromReg
deriving Repr, DecidableEq

/-- Shared tracker state seen by all workers. -/
structure SharedTrk where
  completed : List String := []
  completedCtr : Nat := 0
deriving Repr, DecidableEq

/-- One worker: its remaining program and its private register holding the
counter value it last read. -/
structure WorkerTrk where
  prog : List TrkStep
  reg : Nat := 0
deriving Repr, DecidableEq

/-- The three-step program of one unsynchronized mark_completed(slug). -/
def markCompletedProg (slug : String) : WorkerTrk :=
  { prog := [.addSlug slug, .readCtr, .writeCtrFromReg], reg := 0 }

/-- Execute one step of one worker against the shared state. -/
def stepWorker (st : SharedTrk) (w : WorkerTrk) : SharedTrk × WorkerTrk :=
  match w.prog with
  | [] => (st, w)
  | s :: rest =>
    match s with
    | .addSlug slug =>
      ({ st with completed := insertAbsent st.completed slug },
       { w with prog := rest })
    | .readCtr => (st, { prog := rest, reg := st.completedCtr })
    | .writeCtrFromReg =>
      ({ st with completedCtr := w.reg + 1 }, { w with prog := rest })

/-- Run a schedule (a list of worker indices) over the worker pool. -/
def runSchedule (sched : List Nat) (workers : List WorkerTrk) (st : SharedTrk) :
    SharedTrk :=
  (sched.foldl (fun (acc : SharedTrk × List WorkerTrk) i =>
    let (st, ws) := acc
    match ws.get? i with
    | none => acc
    | some w =>
      let (st2, w2) := stepWorker st w
      (st2, ws.set i w2)) (st, workers)).1

/-! ## Corpus import submission with retry (litfl_indexer.py and
aliem/batch_import.py) -/

/-- One response of the remote import endpoint, as consulted by the retry
loops: the HTTP status and whether the body mentions FAILED_PRECONDITION. -/
structure ImportResp where
  status : Nat
  failedPrecondition : Bool := false
deriving Repr, DecidableEq

/-- The retry loop of the LITFL indexer import submission
(max_retries = 5): success on 200 or 201; a 429 waits 2 * 2^attempt seconds
and retries; a 400 mentioning FAILED_PRECONDITION waits 3 * 2^attempt
seconds and retries; any other response fails at once; exhausting the
attempts fails.  Returns the outcome and the waits performed, in order. -/
def litflImportGo (resp : Nat → ImportResp) : Nat → Nat → Bool × List Nat
  | 0, _ => (false, [])
  | remaining + 1, attempt =>
    let r := resp attempt
    if r.status = 200 || r.status = 201 then (true, [])
    else if r.status = 429 then
      let rest := litflImportGo resp remaining (attempt + 1)
      (rest.1, (2 ^ attempt * 2) :: rest.2)
    else if r.status = 400 && r.failedPrecondition then
      let rest := litflImportGo resp remaining (attempt + 1)
      (rest.1, (2 ^ attempt * 3) :: rest.2)
    else (false, [])

/-- LITFL _index_via_import submission outcome over a response sequence. -/
def litflImportSubmit (resp : Nat → ImportResp) : Bool × List Nat :=
  litflImportGo resp 5 0

/-- Outcome of one ALiEM batch submission. -/
inductive BatchOutcome
  | started
  | errored
  | exhausted
deriving Repr, DecidableEq

/-- The retry loop of the ALiEM batch_import per-batch submission (8
attempts): success on 200 or 201; a 400 mentioning FAILED_PRECONDITION
waits min(3 * 2^attempt, 90) seconds and retries; any other response,
including a 429 rate limit, errors at once; exhausting the attempts falls
through silently. -/
def aliemBatchGo (resp : Nat → ImportResp) : Nat → Nat → BatchOutcome × List Nat
  | 0, _ => (.exhausted, [])
  | remaining + 1, attempt =>
    let r := resp attempt
    if r.status = 200 || r.status = 201 then (.started, [])
    else if r.status = 400 && r.failedPrecondition then
      let rest := aliemBatchGo resp remaining (attempt + 1)
      (rest.1, (min (2 ^ attempt * 3) 90) :: rest.2)
    else (.errored, [])

/-- ALiEM batch_import submission outcome over a response sequence. -/
def aliemBatchSubmit (resp : Nat → ImportResp) : BatchOutcome × List Nat :=
  aliemBatchGo resp 8 0

/-- The discovery file written by LITFLDiscovery.save_discovery: the
discovered url entries as passed in (no deduplication is applied to the
manifest itself), and the auxiliary slug list, sorted(set(slugs)). -/
structure LitflDiscoveryFile where
  totalUrls : Nat
  urls : List LitflUrlEntry
  slugs : List String
deriving Repr, DecidableEq

/-- Build the persisted discovery record from the discovered url list. -/
def litflSaveDiscovery (urls : List LitflUrlEntry) : LitflDiscoveryFile :=
  { totalUrls := urls.length, urls := urls, slugs := litflSlugList urls }

/-! ## Demonstration inputs used by the closed theorems -/

/-- Two sitemap batches of discovered PMC articles: 15 each, sharing the
ten keys PMC06 to PMC15, 30 raw entries and 20 unique keys in total. -/
def demoJournalA : List PmcArticle :=
  ["PMC01", "PMC02", "PMC03", "PMC04", "PMC05", "PMC06", "PMC07", "PMC08",
   "PMC09", "PMC10", "PMC11", "PMC12", "PMC13", "PMC14", "PMC15"].map
    (fun k => { pmcid := k, journal := "Annals of Emergency Medicine" })

/-- Second sitemap batch, keys PMC06 to PMC20. -/
def demoJournalB : List PmcArticle :=
  ["PMC06", "PMC07", "PMC08", "PMC09", "PMC10", "PMC11", "PMC12", "PMC13",
   "PMC14", "PMC15", "PMC16", "PMC17", "PMC18", "PMC19", "PMC20"].map
    (fun k => { pmcid := k, journal := "Acad Emerg Med" })

/-- Discovered LITFL url entries whose first-occurrence slug order (beta
before alpha) differs from sorted order, with one duplicated slug across
the two sitemaps. -/
def demoLitflUrls : List LitflUrlEntry :=
  [{ url := "https://litfl.com/beta/", slug := "beta", lastmod := none,
     source := "post-sitemap1.xml" },
   { url := "https://litfl.com/alpha/", slug := "alpha", lastmod := none,
     source := "post-sitemap2.xml" },
   { url := "https://litfl.com/beta/", slug := "beta", lastmod := none,
     source := "post-sitemap2.xml" }]

/-- A container child whose clean text holds a later-listed marker at an
earlier position than the first-listed marker. -/
def demoMarkerChild : Child :=
  Child.tag
    { name := "p"
      getText := "Intro. Written by Alice WANT TO SUPPORT REBELEM? Donate."
      cleanText := "Intro.\nWritten by Alice\nWANT TO SUPPORT REBELEM? Donate." }

/-- A container child whose clean text holds a single citation marker. -/
def demoCiteChild : Child :=
  Child.tag
    { name := "p"
      getText := "Real content."
      cleanText := "Real content.\nCite this article as: Smith J." }

/-- A tag child that begins with a content-end marker. -/
def demoStopChild : Child :=
  Child.tag
    { name := "div"
      getText := "Cite this article as: Smith J."
      cleanText := "Cite this article as: Smith J." }

/-- A trailing sibling that would contribute text and an image. -/
def demoTailChild : Child :=
  Child.tag
    { name := "p"
      getText := "Trailing bio"
      cleanText := "Trailing bio"
      imgTags := [{ src := some "https://rebelem.com/wp-content/uploads/pic.png" }] }

/-- A simple content container: introduction text, one heading, one body
paragraph. -/
def demoContainer : List Child :=
  [Child.textNode (" Overview of the topic. ") false,
   Child.tag { name := "h2", getText := "Management" },
   Child.tag { name := "p", cleanText := "Give oxygen.\nTitrate to response." }]

/-- The same container with an ALiEM-style noise child added (stripped
before hashing) and different surrounding metadata. -/
def demoContainerNoisy : List Child :=
  [Child.tag { name := "div", classes := ["sharedaddy"],
               cleanText := "Share this post!" },
   Child.textNode (" Overview of the topic. ") false,
   Child.tag { name := "h2", getText := "Management" },
   Child.tag { name := "p", cleanText := "Give oxygen.\nTitrate to response." }]

/-- An all-noise container: stripping leaves no section text. -/
def demoAllNoise : List Child :=
  [Child.tag { name := "noscript", cleanText := "noscript body" },
   Child.tag { name := "div", classes := ["sharedaddy"],
               cleanText := "Share this post!" },
   Child.textNode ("   ") false]

/-- Progress trackers before and after one more completion, for the save
counterexample. -/
def demoTrackerA : ProgressTracker :=
  markCompleted {} ("alpha") 2

/-- The same tracker after completing beta as well. -/
def demoTrackerB : ProgressTracker :=
  markCompleted demoTrackerA ("beta") 1

/-- Response sequence: three rate limits, then success. -/
def demoResp429 (i : Nat) : ImportResp :=
  if i < 3 then { status := 429 } else { status := 200 }

/-- Response sequence: corpus busy forever. -/
def demoRespBusy (_ : Nat) : ImportResp :=
  { status := 400, failedPrecondition := true }

/-- Response sequence: an unrecoverable server error. -/
def demoResp500 (_ : Nat) : ImportResp :=
  { status := 500 }

/-- The clean text of the marker-priority demonstration child. -/
def demoMarkerText : String :=
  "Intro.\nWritten by Alice\nWANT TO SUPPORT REBELEM? Donate."

/-- Modelled from the spec: the section in which a marker string first
appears has its content cut at the index of that first-appearing marker,
that is, at the smallest first-occurrence index over all contained
markers. -/
def earliestMarkerCut (text : String) : String :=
  let contained := CONTENT_END_MARKERS.filter (fun m => pyContains text m)
  match contained with
  | [] => text
  | m :: ms =>
    let best := ms.foldl (fun acc m2 =>
      if (pyBeforeFirst text m2).length < (pyBeforeFirst text acc).length
      then m2 else acc) m
    pyStrip (pyBeforeFirst text best)

/-- On-disk progress content before the save under test. -/
def demoOldContent : String :=
  renderProgress demoTrackerA ("2025-01-01T00:00:00Z")

/-- On-disk progress content a completed save would write. -/
def demoNewContent : String :=
  renderProgress demoTrackerB ("2025-01-01T00:05:00Z")

/-- A REBEL EM style container: pre-heading text, one colon-suffixed h3
heading, one body paragraph. -/
def demoRebelemContainer : List Child :=
  [Child.textNode (" Background information. ") false,
   Child.tag { name := "h3", getText := "What They Did:" },
   Child.tag { name := "p", cleanText := "Randomized 100 patients." }]

/-! ## Lemmas about the string helpers -/

/-- A string has a content character when not all of its characters are
whitespace. -/
def hasContentChar (s : String) : Bool :=
  s.data.any (fun c => !isPyWs c)

theorem data_mk (l : List Char) : (String.mk l).data = l := rfl

theorem data_append_eq (a b : String) : (a ++ b).data = a.data ++ b.data := rfl

theorem dropWhile_both_nil_iff (p : Char → Bool) (l : List Char) :
    ((l.dropWhile p).reverse.dropWhile p).reverse = [] ↔ ∀ x ∈ l, p x = true := by
  rw [List.reverse_eq_nil_iff, List.dropWhile_eq_nil_iff]
  constructor
  · intro h x hx
    rcases List.mem_append.mp
      ((List.takeWhile_append_dropWhile (p := p) (l := l)) ▸ hx) with h1 | h2
    · exact List.mem_takeWhile_imp h1
    · exact h x (List.mem_reverse.mpr h2)
  · intro h x hx
    exact h x ((List.dropWhile_sublist (p := p)).mem (List.mem_reverse.mp hx))

theorem pyStrip_eq_empty_iff (s : String) :
    pyStrip s = "" ↔ hasContentChar s = false := by
  unfold pyStrip hasContentChar
  rw [show ("" : String) = String.mk [] from rfl]
  rw [String.ext_iff]
  simp only [data_mk]
  rw [dropWhile_both_nil_iff]
  simp [List.any_eq_true]

theorem hasContentChar_append (a b : String) :
    hasContentChar (a ++ b) = (hasContentChar a || hasContentChar b) := by
  unfold hasContentChar
  rw [data_append_eq, List.any_append]

theorem pyJoin_concat (sep t : String) (parts : List String) (h : parts ≠ []) :
    pyJoin sep (parts ++ [t]) = pyJoin sep parts ++ sep ++ t := by
  induction parts with
  | nil => exact absurd rfl h
  | cons p ps ih =>
    cases ps with
    | nil => rfl
    | cons q qs =>
      show pyJoin sep (p :: ((q :: qs) ++ [t])) = _
      rw [show pyJoin sep (p :: ((q :: qs) ++ [t]))
            = p ++ sep ++ pyJoin sep ((q :: qs) ++ [t]) from rfl]
      rw [ih (by simp)]
      rw [show pyJoin sep (p :: q :: qs) = p ++ sep ++ pyJoin sep (q :: qs) from rfl]
      simp [String.append_assoc]

theorem stripJoin_append_ne (sep t : String) (parts : List String)
    (h : pyStrip (pyJoin sep parts) ≠ "") :
    pyStrip (pyJoin sep (parts ++ [t])) ≠ "" := by
  have hparts : parts ≠ [] := by
    intro hnil
    subst hnil
    exact h (by rfl)
  rw [pyJoin_concat sep t parts hparts]
  intro hcon
  apply h
  rw [pyStrip_eq_empty_iff] at hcon ⊢
  rw [hasContentChar_append, hasContentChar_append] at hcon
  simp only [Bool.or_eq_false_iff] at hcon
  exact hcon.1.1

theorem isPrefixOf_append_right (pat l l' : List Char)
    (h : pat.isPrefixOf l = true) : pat.isPrefixOf (l ++ l') = true := by
  rw [List.isPrefixOf_iff_prefix] at h ⊢
  exact h.trans ⟨l', rfl⟩

theorem subOccurs_append_left (pat l l' : List Char)
    (h : subOccurs pat l = true) : subOccurs pat (l' ++ l) = true := by
  induction l' with
  | nil => exact h
  | cons c rest ih =>
    show subOccurs pat (c :: (rest ++ l)) = true
    simp only [subOccurs, Bool.or_eq_true]
    exact Or.inr ih

theorem subOccurs_append_right (pat l l' : List Char)
    (h : subOccurs pat l = true) : subOccurs pat (l ++ l') = true := by
  induction l with
  | nil =>
    unfold subOccurs at h
    have : pat = [] := by simpa using h
    subst this
    cases l' with
    | nil => rfl
    | cons c rest =>
      unfold subOccurs
      simp [List.isPrefixOf]
  | cons c rest ih =>
    simp only [subOccurs, Bool.or_eq_true] at h ⊢
    rcases h with h | h
    · exact Or.inl (isPrefixOf_append_right pat (c :: rest) l' h)
    · exact Or.inr (ih h)

theorem takeUntilSub_prefixOf (pat : List Char) :
    ∀ l : List Char, takeUntilSub pat l <+: l := by
  intro l
  induction l with
  | nil => simp [takeUntilSub]
  | cons c rest ih =>
    unfold takeUntilSub
    split
    · exact ⟨c :: rest, rfl⟩
    · exact (List.prefix_cons_inj c).mpr ih

theorem subOccurs_takeUntilSub (pat : List Char) (hpat : pat ≠ []) :
    ∀ l : List Char, subOccurs pat (takeUntilSub pat l) = false := by
  intro l
  induction l with
  | nil =>
    unfold takeUntilSub subOccurs
    simpa using hpat
  | cons c rest ih =>
    unfold takeUntilSub
    split
    · unfold subOccurs
      simpa using hpat
    · rename_i hnp
      unfold subOccurs
      rw [Bool.or_eq_false_iff]
      refine ⟨?_, ih⟩
      by_contra hc
      rw [Bool.not_eq_false, List.isPrefixOf_iff_prefix] at hc
      apply hnp
      rw [List.isPrefixOf_iff_prefix]
      exact hc.trans ((List.prefix_cons_inj c).mpr (takeUntilSub_prefixOf pat rest))

theorem subOccurs_self (l : List Char) : subOccurs l l = true := by
  cases l with
  | nil => rfl
  | cons c rest =>
    unfold subOccurs
    rw [Bool.or_eq_true]
    exact Or.inl (by rw [List.isPrefixOf_iff_prefix])

theorem subOccurs_mem_pyJoin (sep : String) (p : String) :
    ∀ parts : List String, p ∈ parts →
      subOccurs p.data (pyJoin sep parts).data = true := by
  intro parts
  induction parts with
  | nil => intro hp; cases hp
  | cons q qs ih =>
    intro hp
    cases qs with
    | nil =>
      rcases List.mem_singleton.mp hp with rfl
      exact subOccurs_self p.data
    | cons r rs =>
      rw [show pyJoin sep (q :: r :: rs) = q ++ sep ++ pyJoin sep (r :: rs) from rfl]
      rcases List.mem_cons.mp hp with rfl | hmem
      · rw [data_append_eq, data_append_eq]
        rw [List.append_assoc]
        exact subOccurs_append_right p.data p.data _ (subOccurs_self p.data)
      · rw [data_append_eq]
        exact subOccurs_append_left p.data _ _ (ih hmem)


theorem insertSorted_perm (x : String) (l : List String) :
    List.Perm (insertSorted x l) (x :: l) := by
  induction l with
  | nil => exact List.Perm.refl _
  | cons y ys ih =>
    unfold insertSorted
    split
    · exact List.Perm.refl _
    · exact (List.Perm.cons y ih).trans (List.Perm.swap x y ys)

theorem sortStrings_perm (l : List String) : List.Perm (sortStrings l) l := by
  induction l with
  | nil => exact List.Perm.refl _
  | cons x xs ih =>
    exact (insertSorted_perm x (sortStrings xs)).trans (List.Perm.cons x ih)

theorem mem_distinctStrings (x : String) :
    ∀ l : List String, x ∈ distinctStrings l ↔ x ∈ l := by
  intro l
  induction l with
  | nil => simp [distinctStrings]
  | cons y ys ih =>
    unfold distinctStrings
    split
    · rename_i hmem
      rw [ih]
      constructor
      · exact fun h => List.mem_cons_of_mem y h
      · intro h
        rcases List.mem_cons.mp h with rfl | h2
        · simpa using hmem
        · exact h2
    · simp only [List.mem_cons, ih]

theorem nodup_distinctStrings : ∀ l : List String, (distinctStrings l).Nodup := by
  intro l
  induction l with
  | nil => exact List.nodup_nil
  | cons y ys ih =>
    unfold distinctStrings
    split
    · exact ih
    · rename_i hnm
      refine List.nodup_cons.mpr ⟨?_, ih⟩
      intro hy
      rw [mem_distinctStrings] at hy
      exact (by simpa using hnm : y ∉ ys) hy

theorem litflSlugList_nodup (urls : List LitflUrlEntry) :
    (litflSlugList urls).Nodup := by
  unfold litflSlugList
  exact (sortStrings_perm _).nodup_iff.mpr
    (nodup_distinctStrings (urls.map (fun e => e.slug)))

theorem mem_litflSlugList (urls : List LitflUrlEntry) (s : String) :
    s ∈ litflSlugList urls ↔ s ∈ urls.map (fun e => e.slug) := by
  unfold litflSlugList
  rw [(sortStrings_perm _).mem_iff, mem_distinctStrings]

/-! ## Lemmas about the PMC dedup loop -/

theorem dedupArticlesGo_sublist (seen : List String) :
    ∀ l : List PmcArticle, List.Sublist (dedupArticlesGo seen l) l := by
  intro l
  induction l generalizing seen with
  | nil => exact List.Sublist.refl _
  | cons a rest ih =>
    unfold dedupArticlesGo
    split
    · exact (ih seen).cons a
    · exact (ih (a.pmcid :: seen)).cons₂ a

theorem dedupArticlesGo_notSeen (seen : List String) :
    ∀ l : List PmcArticle, ∀ a ∈ dedupArticlesGo seen l, a.pmcid ∉ seen := by
  intro l
  induction l generalizing seen with
  | nil => intro a ha; cases ha
  | cons b rest ih =>
    intro a ha
    unfold dedupArticlesGo at ha
    split at ha
    · exact ih seen a ha
    · rename_i hns
      rcases List.mem_cons.mp ha with rfl | hmem
      · simpa using hns
      · have := ih (b.pmcid :: seen) a hmem
        exact fun hc => this (List.mem_cons_of_mem _ hc)

theorem dedupArticlesGo_nodupKeys (seen : List String) :
    ∀ l : List PmcArticle,
      ((dedupArticlesGo seen l).map (fun a => a.pmcid)).Nodup := by
  intro l
  induction l generalizing seen with
  | nil => exact List.nodup_nil
  | cons b rest ih =>
    unfold dedupArticlesGo
    split
    · exact ih seen
    · rw [List.map_cons]
      refine List.nodup_cons.mpr ⟨?_, ih (b.pmcid :: seen)⟩
      intro hmem
      rcases List.mem_map.mp hmem with ⟨a, ha, hkey⟩
      exact dedupArticlesGo_notSeen (b.pmcid :: seen) rest a ha
        (hkey ▸ List.mem_cons_self _ _)

theorem dedupArticlesGo_firstOcc (seen : List String) :
    ∀ l : List PmcArticle, ∀ a ∈ dedupArticlesGo seen l,
      l.find? (fun x => x.pmcid == a.pmcid) = some a := by
  intro l
  induction l generalizing seen with
  | nil => intro a ha; cases ha
  | cons b rest ih =>
    intro a ha
    have hnot := dedupArticlesGo_notSeen seen (b :: rest) a ha
    unfold dedupArticlesGo at ha
    split at ha
    · rename_i hseen
      have hne : (b.pmcid == a.pmcid) = false := by
        rw [beq_eq_false_iff_ne]
        intro hc
        exact hnot (hc ▸ List.elem_iff.mp hseen)
      rw [List.find?_cons, hne]
      exact ih seen a ha
    · rcases List.mem_cons.mp ha with rfl | hmem
      · rw [List.find?_cons, beq_self_eq_true]
      · have hnot2 := dedupArticlesGo_notSeen (b.pmcid :: seen) rest a hmem
        have hne : (b.pmcid == a.pmcid) = false := by
          rw [beq_eq_false_iff_ne]
          intro hc
          exact hnot2 (hc ▸ List.mem_cons_self _ _)
        rw [List.find?_cons, hne]
        exact ih (b.pmcid :: seen) a hmem

/-! ## Lemmas about the progress tracker and the bulk run -/

theorem markError_completed (t : ProgressTracker) (slug msg ts : String) :
    (markError t slug msg ts).completed = t.completed := rfl

theorem markCompleted_errors (t : ProgressTracker) (slug : String) (n : Nat) :
    (markCompleted t slug n).errors = t.errors := rfl

theorem contains_insertAbsent (l : List String) (x y : String)
    (h : l.contains y = true) : (insertAbsent l x).contains y = true := by
  unfold insertAbsent
  split
  · exact h
  · simp only [List.elem_iff] at h ⊢
    exact List.mem_append_left _ h

theorem contains_insertAbsent_self (l : List String) (x : String) :
    (insertAbsent l x).contains x = true := by
  unfold insertAbsent
  split
  · assumption
  · simp [List.elem_iff]

theorem runBulk_mono (outcome : String → Bool) (imageCount : String → Nat)
    (errMsg ts slug : String) :
    ∀ (slugs : List String) (t : ProgressTracker),
      t.completed.contains slug = true →
      (runBulk outcome imageCount errMsg ts slugs t).completed.contains slug = true := by
  intro slugs
  induction slugs with
  | nil => intro t h; exact h
  | cons s rest ih =>
    intro t h
    show (runBulk outcome imageCount errMsg ts rest
      (if outcome s then markCompleted t s (imageCount s)
       else markError t s errMsg ts)).completed.contains slug = true
    split
    · exact ih _ (contains_insertAbsent t.completed s slug h)
    · exact ih _ h

theorem runBulk_completes (outcome : String → Bool) (imageCount : String → Nat)
    (errMsg ts slug : String) :
    ∀ (slugs : List String) (t : ProgressTracker),
      slug ∈ slugs → outcome slug = true →
      (runBulk outcome imageCount errMsg ts slugs t).completed.contains slug = true := by
  intro slugs
  induction slugs with
  | nil => intro t h; cases h
  | cons s rest ih =>
    intro t hmem hout
    show (runBulk outcome imageCount errMsg ts rest
      (if outcome s then markCompleted t s (imageCount s)
       else markError t s errMsg ts)).completed.contains slug = true
    rcases List.mem_cons.mp hmem with rfl | hmem2
    · rw [if_pos hout]
      exact runBulk_mono outcome imageCount errMsg ts slug rest _
        (contains_insertAbsent_self t.completed slug)
    · split
      · exact ih _ hmem2 hout
      · exact ih _ hmem2 hout

theorem runBulk_allFail (outcome : String → Bool) (imageCount : String → Nat)
    (errMsg ts : String) :
    ∀ (slugs : List String) (t : ProgressTracker),
      (∀ s ∈ slugs, outcome s = false) →
      (runBulk outcome imageCount errMsg ts slugs t).completed = t.completed := by
  intro slugs
  induction slugs with
  | nil => intro t _; rfl
  | cons s rest ih =>
    intro t hall
    show (runBulk outcome imageCount errMsg ts rest
      (if outcome s then markCompleted t s (imageCount s)
       else markError t s errMsg ts)).completed = t.completed
    rw [if_neg (by rw [hall s (List.mem_cons_self s rest)]; exact Bool.false_ne_true)]
    rw [ih _ (fun x hx => hall x (List.mem_cons_of_mem s hx))]
    exact markError_completed t s errMsg ts

theorem clearAll_foldl (keys : List String) :
    ∀ es : List (String × ErrorRec), (∀ p ∈ es, p.1 ∈ keys) →
      keys.foldl (fun es slug => es.filter (fun p => !(p.1 = slug))) es = [] := by
  induction keys with
  | nil =>
    intro es h
    exact List.eq_nil_iff_forall_not_mem.mpr (fun p hp => by cases h p hp)
  | cons k ks ih =>
    intro es h
    show ks.foldl _ (es.filter (fun p => !(p.1 = k))) = []
    apply ih
    intro p hp
    rcases List.mem_filter.mp hp with ⟨hmem, hne⟩
    rcases List.mem_cons.mp (h p hmem) with hk | hks
    · exact absurd hk (by simpa using hne)
    · exact hks

theorem clearRetriedErrors_all (t : ProgressTracker) :
    (clearRetriedErrors t (errorKeys t)).errors = [] := by
  unfold clearRetriedErrors
  exact clearAll_foldl (errorKeys t) t.errors
    (fun p hp => List.mem_map.mpr ⟨p, hp, rfl⟩)

/-! ## Lemmas about the import retry loops -/

theorem litflImportGo_neverSucceeds (resp : Nat → ImportResp)
    (h : ∀ i, ((resp i).status = 200 ∨ (resp i).status = 201) → False) :
    ∀ remaining attempt, (litflImportGo resp remaining attempt).1 = false := by
  intro remaining
  induction remaining with
  | zero => intro attempt; rfl
  | succ rem ih =>
    intro attempt
    unfold litflImportGo
    dsimp only
    split
    · rename_i hs
      simp only [Bool.or_eq_true, decide_eq_true_eq] at hs
      exact absurd hs (h attempt)
    · split
      · exact ih (attempt + 1)
      · split
        · exact ih (attempt + 1)
        · rfl

/-! ## Lemmas about the section walks -/

/-- Order fields of a section list are exactly the 1-based positions. -/
def ordersOk (l : List SectionRec) : Prop :=
  l.map (fun s => s.order) = List.range' 1 l.length

theorem ordersOk_nil : ordersOk [] := rfl

theorem ordersOk_append_one (l : List SectionRec) (x : SectionRec)
    (h : ordersOk l) (hx : x.order = l.length + 1) : ordersOk (l ++ [x]) := by
  unfold ordersOk at h ⊢
  rw [List.map_append, h]
  simp only [List.map_cons, List.map_nil, List.length_append,
    List.length_singleton, hx, List.range'_concat]
  congr 1
  simp [Nat.add_comm]

theorem flushSection_ordersOk (sections : List SectionRec) (h : String)
    (lvl : Nat) (parts : List String) (hs : ordersOk sections) :
    ordersOk (flushSection sections h lvl parts) := by
  unfold flushSection
  dsimp only
  split
  · exact hs
  · exact ordersOk_append_one sections _ hs rfl

theorem rebelemFlush_ordersOk (sections : List SectionRec) (h : String)
    (lvl : Nat) (parts : List String) (hs : ordersOk sections) :
    ordersOk (rebelemFlush sections h lvl parts) := by
  unfold rebelemFlush
  dsimp only
  split
  · exact hs
  · split
    · exact hs
    · exact ordersOk_append_one sections _ hs rfl

theorem litflSectionsGo_ordersOk :
    ∀ children : List Child, ∀ sections hd lvl parts, ordersOk sections →
      ordersOk (litflSectionsGo children sections hd lvl parts) := by
  intro children
  induction children with
  | nil =>
    intro sections hd lvl parts hs
    exact flushSection_ordersOk sections hd lvl parts hs
  | cons c rest ih =>
    intro sections hd lvl parts hs
    cases c with
    | textNode s ez =>
      simp only [litflSectionsGo]
      split
      · exact ih sections hd lvl parts hs
      · exact ih sections hd lvl _ hs
    | tag d =>
      simp only [litflSectionsGo]
      split
      · split
        · exact ih _ hd lvl parts (flushSection_ordersOk sections hd lvl parts hs)
        · exact ih _ _ _ [] (flushSection_ordersOk sections hd lvl parts hs)
      · split
        · split
          · split
            · exact ih sections hd lvl parts hs
            · exact ih sections hd lvl _ hs
          · exact ih sections hd lvl parts hs
        · split
          · exact ih sections hd lvl parts hs
          · exact ih sections hd lvl _ hs

theorem rebelemSectionsGo_ordersOk :
    ∀ children : List Child, ∀ sections hd lvl parts, ordersOk sections →
      ordersOk (rebelemSectionsGo children sections hd lvl parts) := by
  intro children
  induction children with
  | nil =>
    intro sections hd lvl parts hs
    exact rebelemFlush_ordersOk sections hd lvl parts hs
  | cons c rest ih =>
    intro sections hd lvl parts hs
    cases c with
    | textNode s ez =>
      simp only [rebelemSectionsGo]
      split
      · exact ih sections hd lvl parts hs
      · split
        · exact rebelemFlush_ordersOk sections hd lvl parts hs
        · exact ih sections hd lvl _ hs
    | tag d =>
      simp only [rebelemSectionsGo]
      split
      · exact rebelemFlush_ordersOk sections hd lvl parts hs
      · split
        · split
          · exact ih _ hd lvl parts (rebelemFlush_ordersOk sections hd lvl parts hs)
          · exact ih _ _ _ [] (rebelemFlush_ordersOk sections hd lvl parts hs)
        · split
          · split
            · split
              · exact ih sections hd lvl parts hs
              · exact ih sections hd lvl _ hs
            · exact ih sections hd lvl parts hs
          · split
            · exact ih sections hd lvl parts hs
            · exact ih sections hd lvl _ hs

/-- Heading name and numeric level of every heading child the LITFL walk
accepts (nonempty normalized text). -/
def litflHeadingPairs (children : List Child) : List (String × Nat) :=
  children.filterMap (fun c => match c with
    | .tag d =>
      if d.name ∈ headingNames ∧ pyNormalizeSpace d.getText ≠ "" then
        some (pyNormalizeSpace d.getText, headingDigit d.name)
      else none
    | .textNode _ _ => none)

/-- Heading name and numeric level of every heading child the REBEL EM walk
accepts (nonempty normalized text with trailing colons stripped). -/
def rebelemHeadingPairs (children : List Child) : List (String × Nat) :=
  children.filterMap (fun c => match c with
    | .tag d =>
      if d.name ∈ headingNames ∧ pyRstripChar ':' (pyNormalizeSpace d.getText) ≠ "" then
        some (pyRstripChar ':' (pyNormalizeSpace d.getText), headingDigit d.name)
      else none
    | .textNode _ _ => none)

theorem mem_filterMap_cons {α β : Type} (f : α → Option β) (c : α)
    (l : List α) (p : β) (h : p ∈ l.filterMap f) : p ∈ (c :: l).filterMap f := by
  rcases List.mem_filterMap.mp h with ⟨a, ha, hfa⟩
  exact List.mem_filterMap.mpr ⟨a, List.mem_cons_of_mem c ha, hfa⟩

/-- A section emitted by the LITFL flush is an old section or carries the
current heading and level. -/
theorem mem_flushSection (sections : List SectionRec) (hd : String) (lvl : Nat)
    (parts : List String) (s : SectionRec)
    (h : s ∈ flushSection sections hd lvl parts) :
    s ∈ sections ∨ (s.heading = hd ∧ s.level = lvl) := by
  unfold flushSection at h
  dsimp only at h
  split at h
  · exact Or.inl h
  · rcases List.mem_append.mp h with h2 | h2
    · exact Or.inl h2
    · rcases List.mem_singleton.mp h2 with rfl
      exact Or.inr ⟨rfl, rfl⟩

/-- A section emitted by the REBEL EM flush is an old section or carries
the current heading and level. -/
theorem mem_rebelemFlush (sections : List SectionRec) (hd : String) (lvl : Nat)
    (parts : List String) (s : SectionRec)
    (h : s ∈ rebelemFlush sections hd lvl parts) :
    s ∈ sections ∨ (s.heading = hd ∧ s.level = lvl) := by
  unfold rebelemFlush at h
  dsimp only at h
  split at h
  · exact Or.inl h
  · split at h
    · exact Or.inl h
    · rcases List.mem_append.mp h with h2 | h2
      · exact Or.inl h2
      · rcases List.mem_singleton.mp h2 with rfl
        exact Or.inr ⟨rfl, rfl⟩

theorem litflSectionsGo_prov (A : List (String × Nat)) :
    ∀ children : List Child, ∀ sections hd lvl parts,
      (∀ p ∈ litflHeadingPairs children, p ∈ A) →
      ((hd = "Introduction" ∧ lvl = 2) ∨ (hd, lvl) ∈ A) →
      (∀ s ∈ sections, (s.heading = "Introduction" ∧ s.level = 2) ∨ (s.heading, s.level) ∈ A) →
      ∀ s ∈ litflSectionsGo children sections hd lvl parts,
        (s.heading = "Introduction" ∧ s.level = 2) ∨ (s.heading, s.level) ∈ A := by
  intro children
  induction children with
  | nil =>
    intro sections hd lvl parts _ hcur hsec s hs
    rcases mem_flushSection sections hd lvl parts s hs with h | ⟨h1, h2⟩
    · exact hsec s h
    · rcases hcur with ⟨e1, e2⟩ | hmem
      · exact Or.inl ⟨h1.trans e1, h2.trans e2⟩
      · exact Or.inr (by rw [h1, h2]; exact hmem)
  | cons c rest ih =>
    intro sections hd lvl parts hpairs hcur hsec
    have hpairs2 : ∀ p ∈ litflHeadingPairs rest, p ∈ A := by
      intro p hp
      exact hpairs p (mem_filterMap_cons _ c rest p hp)
    cases c with
    | textNode s ez =>
      simp only [litflSectionsGo]
      split
      · exact ih sections hd lvl parts hpairs2 hcur hsec
      · exact ih sections hd lvl _ hpairs2 hcur hsec
    | tag d =>
      have hsec2 : ∀ s ∈ flushSection sections hd lvl parts,
          (s.heading = "Introduction" ∧ s.level = 2) ∨ (s.heading, s.level) ∈ A := by
        intro s hs
        rcases mem_flushSection sections hd lvl parts s hs with h | ⟨h1, h2⟩
        · exact hsec s h
        · rcases hcur with ⟨e1, e2⟩ | hmem
          · exact Or.inl ⟨h1.trans e1, h2.trans e2⟩
          · exact Or.inr (by rw [h1, h2]; exact hmem)
      simp only [litflSectionsGo]
      split
      · rename_i hhn
        split
        · exact ih _ hd lvl parts hpairs2 hcur hsec2
        · rename_i hht
          refine ih _ _ _ [] hpairs2 (Or.inr ?_) hsec2
          apply hpairs
          unfold litflHeadingPairs
          rw [List.filterMap_cons]
          dsimp only
          have : (if d.name ∈ headingNames ∧ pyNormalizeSpace d.getText ≠ "" then
              some (pyNormalizeSpace d.getText, headingDigit d.name)
            else none) = some (pyNormalizeSpace d.getText, headingDigit d.name) := by
            rw [if_pos ⟨hhn, hht⟩]
          rw [this]
          exact List.mem_cons_self _ _
      · split
        · split
          · split
            · exact ih sections hd lvl parts hpairs2 hcur hsec
            · exact ih sections hd lvl _ hpairs2 hcur hsec
          · exact ih sections hd lvl parts hpairs2 hcur hsec
        · split
          · exact ih sections hd lvl parts hpairs2 hcur hsec
          · exact ih sections hd lvl _ hpairs2 hcur hsec

theorem rebelemSectionsGo_prov (A : List (String × Nat)) :
    ∀ children : List Child, ∀ sections hd lvl parts,
      (∀ p ∈ rebelemHeadingPairs children, p ∈ A) →
      ((hd = "Introduction" ∧ lvl = 2) ∨ (hd, lvl) ∈ A) →
      (∀ s ∈ sections, (s.heading = "Introduction" ∧ s.level = 2) ∨ (s.heading, s.level) ∈ A) →
      ∀ s ∈ rebelemSectionsGo children sections hd lvl parts,
        (s.heading = "Introduction" ∧ s.level = 2) ∨ (s.heading, s.level) ∈ A := by
  intro children
  induction children with
  | nil =>
    intro sections hd lvl parts _ hcur hsec s hs
    rcases mem_rebelemFlush sections hd lvl parts s hs with h | ⟨h1, h2⟩
    · exact hsec s h
    · rcases hcur with ⟨e1, e2⟩ | hmem
      · exact Or.inl ⟨h1.trans e1, h2.trans e2⟩
      · exact Or.inr (by rw [h1, h2]; exact hmem)
  | cons c rest ih =>
    intro sections hd lvl parts hpairs hcur hsec
    have hpairs2 : ∀ p ∈ rebelemHeadingPairs rest, p ∈ A := by
      intro p hp
      exact hpairs p (mem_filterMap_cons _ c rest p hp)
    have hflush : ∀ s ∈ rebelemFlush sections hd lvl parts,
        (s.heading = "Introduction" ∧ s.level = 2) ∨ (s.heading, s.level) ∈ A := by
      intro s hs
      rcases mem_rebelemFlush sections hd lvl parts s hs with h | ⟨h1, h2⟩
      · exact hsec s h
      · rcases hcur with ⟨e1, e2⟩ | hmem
        · exact Or.inl ⟨h1.trans e1, h2.trans e2⟩
        · exact Or.inr (by rw [h1, h2]; exact hmem)
    cases c with
    | textNode s ez =>
      simp only [rebelemSectionsGo]
      split
      · exact ih sections hd lvl parts hpairs2 hcur hsec
      · split
        · exact hflush
        · exact ih sections hd lvl _ hpairs2 hcur hsec
    | tag d =>
      simp only [rebelemSectionsGo]
      split
      · exact hflush
      · split
        · rename_i hhn
          split
          · exact ih _ hd lvl parts hpairs2 hcur hflush
          · rename_i hht
            refine ih _ _ _ [] hpairs2 (Or.inr ?_) hflush
            apply hpairs
            unfold rebelemHeadingPairs
            rw [List.filterMap_cons]
            dsimp only
            have : (if d.name ∈ headingNames ∧
                pyRstripChar ':' (pyNormalizeSpace d.getText) ≠ "" then
                some (pyRstripChar ':' (pyNormalizeSpace d.getText), headingDigit d.name)
              else none) = some (pyRstripChar ':' (pyNormalizeSpace d.getText),
                headingDigit d.name) := by
              rw [if_pos ⟨hhn, hht⟩]
            rw [this]
            exact List.mem_cons_self _ _
        · split
          · split
            · split
              · exact ih sections hd lvl parts hpairs2 hcur hsec
              · exact ih sections hd lvl _ hpairs2 hcur hsec
            · exact ih sections hd lvl parts hpairs2 hcur hsec
          · split
            · exact ih sections hd lvl parts hpairs2 hcur hsec
            · exact ih sections hd lvl _ hpairs2 hcur hsec

theorem headingDigit_bounds (name : String) (h : name ∈ headingNames) :
    2 ≤ headingDigit name ∧ headingDigit name ≤ 6 := by
  simp only [headingNames, List.mem_cons, List.mem_singleton] at h
  rcases h with rfl | rfl | rfl | rfl | h
  · exact ⟨by decide, by decide⟩
  · exact ⟨by decide, by decide⟩
  · exact ⟨by decide, by decide⟩
  · exact ⟨by decide, by decide⟩
  · rcases h with rfl | h
    · exact ⟨by decide, by decide⟩
    · cases h

theorem litflHeadingPairs_bounds (children : List Child) (p : String × Nat)
    (h : p ∈ litflHeadingPairs children) : 2 ≤ p.2 ∧ p.2 ≤ 6 := by
  rcases List.mem_filterMap.mp h with ⟨c, _, hfc⟩
  cases c with
  | textNode s ez => cases hfc
  | tag d =>
    dsimp only at hfc
    split at hfc
    · rename_i hcond
      rcases Option.some_inj.mp hfc with rfl
      exact headingDigit_bounds d.name hcond.1
    · cases hfc

theorem rebelemHeadingPairs_bounds (children : List Child) (p : String × Nat)
    (h : p ∈ rebelemHeadingPairs children) : 2 ≤ p.2 ∧ p.2 ≤ 6 := by
  rcases List.mem_filterMap.mp h with ⟨c, _, hfc⟩
  cases c with
  | textNode s ez => cases hfc
  | tag d =>
    dsimp only at hfc
    split at hfc
    · rename_i hcond
      rcases Option.some_inj.mp hfc with rfl
      exact headingDigit_bounds d.name hcond.1
    · cases hfc

theorem flushSection_append_only (sections : List SectionRec) (hd : String)
    (lvl : Nat) (parts : List String) :
    ∃ suffix, flushSection sections hd lvl parts = sections ++ suffix := by
  unfold flushSection
  dsimp only
  split
  · exact ⟨[], by simp⟩
  · exact ⟨_, rfl⟩

theorem rebelemFlush_append_only (sections : List SectionRec) (hd : String)
    (lvl : Nat) (parts : List String) :
    ∃ suffix, rebelemFlush sections hd lvl parts = sections ++ suffix := by
  unfold rebelemFlush
  dsimp only
  split
  · exact ⟨[], by simp⟩
  · split
    · exact ⟨[], by simp⟩
    · exact ⟨_, rfl⟩

theorem litflSectionsGo_append_only :
    ∀ children : List Child, ∀ sections hd lvl parts,
      ∃ suffix, litflSectionsGo children sections hd lvl parts = sections ++ suffix := by
  intro children
  induction children with
  | nil =>
    intro sections hd lvl parts
    exact flushSection_append_only sections hd lvl parts
  | cons c rest ih =>
    intro sections hd lvl parts
    cases c with
    | textNode s ez =>
      simp only [litflSectionsGo]
      split
      · exact ih sections hd lvl parts
      · exact ih sections hd lvl _
    | tag d =>
      simp only [litflSectionsGo]
      split
      · rcases flushSection_append_only sections hd lvl parts with ⟨s1, hflush⟩
        split
        · rcases ih (flushSection sections hd lvl parts) hd lvl parts with ⟨s2, hgo⟩
          exact ⟨s1 ++ s2, by rw [hgo, hflush, List.append_assoc]⟩
        · rcases ih (flushSection sections hd lvl parts) _ _ [] with ⟨s2, hgo⟩
          exact ⟨s1 ++ s2, by rw [hgo, hflush, List.append_assoc]⟩
      · split
        · split
          · split
            · exact ih sections hd lvl parts
            · exact ih sections hd lvl _
          · exact ih sections hd lvl parts
        · split
          · exact ih sections hd lvl parts
          · exact ih sections hd lvl _

/-- Is this child a heading tag? -/
def isHeadingChild (c : Child) : Bool :=
  match c with
  | .tag d => headingNames.contains d.name
  | .textNode _ _ => false

/-- The parts accumulated by the LITFL walk over a heading-free child
prefix (the heading branch is never taken there and keeps the parts). -/
def litflPartsGo : List Child → List String → List String
  | [], parts => parts
  | c :: rest, parts =>
    match c with
    | .textNode s _ =>
      if pyStrip s = "" then litflPartsGo rest parts
      else litflPartsGo rest (parts ++ [pyStrip s])
    | .tag d =>
      if d.name ∈ headingNames then litflPartsGo rest parts
      else if d.name = "figure" then
        match d.figcaptionText with
        | some cap =>
          if cap = "" then litflPartsGo rest parts
          else litflPartsGo rest (parts ++ ["[Image: " ++ cap ++ "]"])
        | none => litflPartsGo rest parts
      else
        if d.cleanText = "" then litflPartsGo rest parts
        else litflPartsGo rest (parts ++ [d.cleanText])

theorem litflSectionsGo_headingFree :
    ∀ pre : List Child, (∀ c ∈ pre, isHeadingChild c = false) →
      ∀ rest sections hd lvl parts,
        litflSectionsGo (pre ++ rest) sections hd lvl parts
          = litflSectionsGo rest sections hd lvl (litflPartsGo pre parts) := by
  intro pre
  induction pre with
  | nil => intro _ rest sections hd lvl parts; rfl
  | cons c cs ih =>
    intro hfree rest sections hd lvl parts
    have hfree2 : ∀ x ∈ cs, isHeadingChild x = false :=
      fun x hx => hfree x (List.mem_cons_of_mem c hx)
    have hc := hfree c (List.mem_cons_self c cs)
    cases c with
    | textNode s ez =>
      show litflSectionsGo (.textNode s ez :: (cs ++ rest)) sections hd lvl parts = _
      simp only [litflSectionsGo, litflPartsGo]
      split
      · exact ih hfree2 rest sections hd lvl parts
      · exact ih hfree2 rest sections hd lvl _
    | tag d =>
      have hnh : ¬ (d.name ∈ headingNames) := by
        simp only [isHeadingChild] at hc
        simpa using hc
      show litflSectionsGo (.tag d :: (cs ++ rest)) sections hd lvl parts = _
      simp only [litflSectionsGo, litflPartsGo]
      rw [if_neg hnh, if_neg hnh]
      split
      · split
        · split
          · exact ih hfree2 rest sections hd lvl parts
          · exact ih hfree2 rest sections hd lvl _
        · exact ih hfree2 rest sections hd lvl parts
      · split
        · exact ih hfree2 rest sections hd lvl parts
        · exact ih hfree2 rest sections hd lvl _

theorem litflIntro_head :
    ∀ rest : List Child, ∀ parts, pyStrip (pyJoin ("\n") parts) ≠ "" →
      ∃ s, (litflSectionsGo rest [] ("Introduction") 2 parts).head? = some s
        ∧ s.heading = "Introduction" ∧ s.level = 2 ∧ s.order = 1 := by
  intro rest
  induction rest with
  | nil =>
    intro parts hne
    refine ⟨{ heading := "Introduction", level := 2,
              content := pyStrip (pyJoin ("\n") parts), order := 1 }, ?_, rfl, rfl, rfl⟩
    show (flushSection [] ("Introduction") 2 parts).head? = _
    unfold flushSection
    dsimp only
    rw [if_neg hne]
    rfl
  | cons c cs ih =>
    intro parts hne
    cases c with
    | textNode s ez =>
      simp only [litflSectionsGo]
      split
      · exact ih parts hne
      · exact ih _ (stripJoin_append_ne _ _ parts hne)
    | tag d =>
      simp only [litflSectionsGo]
      have hflush : flushSection [] ("Introduction") 2 parts
          = [{ heading := "Introduction", level := 2,
               content := pyStrip (pyJoin ("\n") parts), order := 1 }] := by
        unfold flushSection
        dsimp only
        rw [if_neg hne]
        rfl
      split
      · split
        · rcases litflSectionsGo_append_only cs
            (flushSection [] ("Introduction") 2 parts) ("Introduction") 2 parts
            with ⟨suffix, hgo⟩
          refine ⟨{ heading := "Introduction", level := 2,
                    content := pyStrip (pyJoin ("\n") parts), order := 1 },
                  ?_, rfl, rfl, rfl⟩
          rw [hgo, hflush]
          rfl
        · rcases litflSectionsGo_append_only cs
            (flushSection [] ("Introduction") 2 parts) _ _ []
            with ⟨suffix, hgo⟩
          refine ⟨{ heading := "Introduction", level := 2,
                    content := pyStrip (pyJoin ("\n") parts), order := 1 },
                  ?_, rfl, rfl, rfl⟩
          rw [hgo, hflush]
          rfl
      · split
        · split
          · split
            · exact ih parts hne
            · exact ih _ (stripJoin_append_ne _ _ parts hne)
          · exact ih parts hne
        · split
          · exact ih parts hne
          · exact ih _ (stripJoin_append_ne _ _ parts hne)

theorem rebelemSectionsGo_append_only :
    ∀ children : List Child, ∀ sections hd lvl parts,
      ∃ suffix, rebelemSectionsGo children sections hd lvl parts = sections ++ suffix := by
  intro children
  induction children with
  | nil =>
    intro sections hd lvl parts
    exact rebelemFlush_append_only sections hd lvl parts
  | cons c rest ih =>
    intro sections hd lvl parts
    cases c with
    | textNode s ez =>
      simp only [rebelemSectionsGo]
      split
      · exact ih sections hd lvl parts
      · split
        · exact rebelemFlush_append_only sections hd lvl parts
        · exact ih sections hd lvl _
    | tag d =>
      simp only [rebelemSectionsGo]
      split
      · exact rebelemFlush_append_only sections hd lvl parts
      · split
        · rcases rebelemFlush_append_only sections hd lvl parts with ⟨s1, hflush⟩
          split
          · rcases ih (rebelemFlush sections hd lvl parts) hd lvl parts with ⟨s2, hgo⟩
            exact ⟨s1 ++ s2, by rw [hgo, hflush, List.append_assoc]⟩
          · rcases ih (rebelemFlush sections hd lvl parts) _ _ [] with ⟨s2, hgo⟩
            exact ⟨s1 ++ s2, by rw [hgo, hflush, List.append_assoc]⟩
        · split
          · split
            · split
              · exact ih sections hd lvl parts
              · exact ih sections hd lvl _
            · exact ih sections hd lvl parts
          · split
            · exact ih sections hd lvl parts
            · exact ih sections hd lvl _

/-- Does this child end the straight accumulation of the REBEL EM walk?
True for a loose text node whose stripped text contains a content-end
marker (the walk stops there), for a tag whose text starts with a marker
(likewise) and for a heading tag (the walk flushes there). -/
def isRebelemBreak (c : Child) : Bool :=
  match c with
  | .textNode s _ => !(pyStrip s = "") && containsAnyMarker (pyStrip s)
  | .tag d => startsWithMarker (childGetText d) || headingNames.contains d.name

/-- The parts accumulated by the REBEL EM walk over a break-free child
prefix, mirroring the walk's text, figure and clean-text branches; the
stop and heading branches keep the parts and are never taken on a
break-free prefix. -/
def rebelemPartsGo : List Child → List String → List String
  | [], parts => parts
  | c :: rest, parts =>
    match c with
    | .textNode s _ =>
      if pyStrip s = "" then rebelemPartsGo rest parts
      else if containsAnyMarker (pyStrip s) then parts
      else rebelemPartsGo rest (parts ++ [pyStrip s])
    | .tag d =>
      if startsWithMarker (childGetText d) then parts
      else if d.name ∈ headingNames then rebelemPartsGo rest parts
      else if d.name = "figure" then
        match d.figcaptionText with
        | some cap =>
          if cap = "" then rebelemPartsGo rest parts
          else rebelemPartsGo rest (parts ++ ["[Image: " ++ cap ++ "]"])
        | none => rebelemPartsGo rest parts
      else
        if d.cleanText = "" then rebelemPartsGo rest parts
        else rebelemPartsGo rest (parts ++ [d.cleanText])

theorem rebelemSectionsGo_breakFree :
    ∀ pre : List Child, (∀ c ∈ pre, isRebelemBreak c = false) →
      ∀ rest sections hd lvl parts,
        rebelemSectionsGo (pre ++ rest) sections hd lvl parts
          = rebelemSectionsGo rest sections hd lvl (rebelemPartsGo pre parts) := by
  intro pre
  induction pre with
  | nil => intro _ rest sections hd lvl parts; rfl
  | cons c cs ih =>
    intro hfree rest sections hd lvl parts
    have hfree2 : ∀ x ∈ cs, isRebelemBreak x = false :=
      fun x hx => hfree x (List.mem_cons_of_mem c hx)
    have hc := hfree c (List.mem_cons_self c cs)
    cases c with
    | textNode s ez =>
      show rebelemSectionsGo (.textNode s ez :: (cs ++ rest)) sections hd lvl parts = _
      simp only [rebelemSectionsGo, rebelemPartsGo]
      simp only [isRebelemBreak] at hc
      by_cases hts : pyStrip s = ""
      · rw [if_pos hts, if_pos hts]
        exact ih hfree2 rest sections hd lvl parts
      · simp only [hts, decide_False, Bool.not_false, Bool.true_and] at hc
        have hcm : ¬ (containsAnyMarker (pyStrip s) = true) := by
          rw [hc]
          exact Bool.false_ne_true
        rw [if_neg hts, if_neg hts, if_neg hcm, if_neg hcm]
        exact ih hfree2 rest sections hd lvl _
    | tag d =>
      simp only [isRebelemBreak, Bool.or_eq_false_iff] at hc
      have hsm : ¬ (startsWithMarker (childGetText d) = true) := by
        rw [hc.1]
        exact Bool.false_ne_true
      have hnh : ¬ (d.name ∈ headingNames) := by simpa using hc.2
      show rebelemSectionsGo (.tag d :: (cs ++ rest)) sections hd lvl parts = _
      simp only [rebelemSectionsGo, rebelemPartsGo]
      rw [if_neg hsm, if_neg hsm, if_neg hnh, if_neg hnh]
      split
      · split
        · split
          · exact ih hfree2 rest sections hd lvl parts
          · exact ih hfree2 rest sections hd lvl _
        · exact ih hfree2 rest sections hd lvl parts
      · split
        · exact ih hfree2 rest sections hd lvl parts
        · exact ih hfree2 rest sections hd lvl _

theorem rebelemIntro_head :
    ∀ (rest : List Child) (parts : List String),
      truncateAtMarker (pyStrip (pyJoin ("\n") parts)) ≠ "" →
      (rest = [] ∨ ∃ c cs, rest = c :: cs ∧ isRebelemBreak c = true) →
      ∃ s, (rebelemSectionsGo rest [] ("Introduction") 2 parts).head? = some s
        ∧ s.heading = "Introduction" ∧ s.level = 2 ∧ s.order = 1 := by
  intro rest parts htr hbrk
  have hne : pyStrip (pyJoin ("\n") parts) ≠ "" := by
    intro h0
    rw [h0] at htr
    exact htr (by decide)
  have hflush : rebelemFlush [] ("Introduction") 2 parts
      = [{ heading := "Introduction", level := 2,
           content := truncateAtMarker (pyStrip (pyJoin ("\n") parts)),
           order := 1 }] := by
    unfold rebelemFlush
    dsimp only
    rw [if_neg hne, if_neg htr]
    rfl
  rcases hbrk with rfl | ⟨c, cs, rfl, hc⟩
  · refine ⟨{ heading := "Introduction", level := 2,
              content := truncateAtMarker (pyStrip (pyJoin ("\n") parts)),
              order := 1 }, ?_, rfl, rfl, rfl⟩
    show (rebelemFlush [] ("Introduction") 2 parts).head? = _
    rw [hflush]
    rfl
  · cases c with
    | textNode s ez =>
      simp only [isRebelemBreak, Bool.and_eq_true, Bool.not_eq_false'] at hc
      refine ⟨{ heading := "Introduction", level := 2,
                content := truncateAtMarker (pyStrip (pyJoin ("\n") parts)),
                order := 1 }, ?_, rfl, rfl, rfl⟩
      simp only [rebelemSectionsGo]
      rw [if_neg (by simpa using hc.1), if_pos hc.2, hflush]
      rfl
    | tag d =>
      simp only [isRebelemBreak, Bool.or_eq_true] at hc
      by_cases hstart : startsWithMarker (childGetText d) = true
      · refine ⟨{ heading := "Introduction", level := 2,
                  content := truncateAtMarker (pyStrip (pyJoin ("\n") parts)),
                  order := 1 }, ?_, rfl, rfl, rfl⟩
        simp only [rebelemSectionsGo]
        rw [if_pos hstart, hflush]
        rfl
      · have hhn : d.name ∈ headingNames := by
          rcases hc with hc | hc
          · exact absurd hc hstart
          · simpa using hc
        simp only [rebelemSectionsGo]
        rw [if_neg hstart, if_pos hhn]
        split
        · rcases rebelemSectionsGo_append_only cs
            (rebelemFlush [] ("Introduction") 2 parts) ("Introduction") 2 parts
            with ⟨suffix, hgo⟩
          refine ⟨{ heading := "Introduction", level := 2,
                    content := truncateAtMarker (pyStrip (pyJoin ("\n") parts)),
                    order := 1 }, ?_, rfl, rfl, rfl⟩
          rw [hgo, hflush]
          rfl
        · rcases rebelemSectionsGo_append_only cs
            (rebelemFlush [] ("Introduction") 2 parts) _ _ []
            with ⟨suffix, hgo⟩
          refine ⟨{ heading := "Introduction", level := 2,
                    content := truncateAtMarker (pyStrip (pyJoin ("\n") parts)),
                    order := 1 }, ?_, rfl, rfl, rfl⟩
          rw [hgo, hflush]
          rfl

/-! ## Lemmas about the REBEL EM content-end stop -/

/-- Is this child a tag whose text begins with a content-end marker? -/
def isStopTag (c : Child) : Bool :=
  match c with
  | .tag d => startsWithMarker (childGetText d)
  | .textNode _ _ => false

theorem rebelemSectionsGo_stop (c : Child) (hstop : isStopTag c = true) :
    ∀ rest sections hd lvl parts,
      rebelemSectionsGo (c :: rest) sections hd lvl parts
        = rebelemFlush sections hd lvl parts := by
  intro rest sections hd lvl parts
  cases c with
  | textNode s ez => cases hstop
  | tag d =>
    simp only [isStopTag] at hstop
    simp only [rebelemSectionsGo]
    rw [if_pos hstop]

theorem rebelemImagesGo_stop (c : Child) (hstop : isStopTag c = true) :
    ∀ rest imgs curSection seen,
      rebelemImagesGo (c :: rest) imgs curSection seen = imgs := by
  intro rest imgs curSection seen
  cases c with
  | textNode s ez => cases hstop
  | tag d =>
    simp only [isStopTag] at hstop
    simp only [rebelemImagesGo]
    rw [if_pos hstop]

theorem rebelemSections_discard :
    ∀ pre : List Child, ∀ c : Child, isStopTag c = true →
      ∀ rest1 rest2 sections hd lvl parts,
        rebelemSectionsGo (pre ++ c :: rest1) sections hd lvl parts
          = rebelemSectionsGo (pre ++ c :: rest2) sections hd lvl parts := by
  intro pre
  induction pre with
  | nil =>
    intro c hstop rest1 rest2 sections hd lvl parts
    rw [List.nil_append, List.nil_append,
      rebelemSectionsGo_stop c hstop rest1 sections hd lvl parts,
      rebelemSectionsGo_stop c hstop rest2 sections hd lvl parts]
  | cons x xs ih =>
    intro c hstop rest1 rest2 sections hd lvl parts
    cases x with
    | textNode s ez =>
      show rebelemSectionsGo (.textNode s ez :: (xs ++ c :: rest1)) _ _ _ _ = _
      simp only [rebelemSectionsGo]
      split
      · exact ih c hstop rest1 rest2 sections hd lvl parts
      · split
        · rfl
        · exact ih c hstop rest1 rest2 sections hd lvl _
    | tag d =>
      show rebelemSectionsGo (.tag d :: (xs ++ c :: rest1)) _ _ _ _ = _
      simp only [rebelemSectionsGo]
      split
      · rfl
      · split
        · split
          · exact ih c hstop rest1 rest2 _ hd lvl parts
          · exact ih c hstop rest1 rest2 _ _ _ []
        · split
          · split
            · split
              · exact ih c hstop rest1 rest2 sections hd lvl parts
              · exact ih c hstop rest1 rest2 sections hd lvl _
            · exact ih c hstop rest1 rest2 sections hd lvl parts
          · split
            · exact ih c hstop rest1 rest2 sections hd lvl parts
            · exact ih c hstop rest1 rest2 sections hd lvl _

theorem rebelemImages_discard :
    ∀ pre : List Child, ∀ c : Child, isStopTag c = true →
      ∀ rest1 rest2 imgs curSection seen,
        rebelemImagesGo (pre ++ c :: rest1) imgs curSection seen
          = rebelemImagesGo (pre ++ c :: rest2) imgs curSection seen := by
  intro pre
  induction pre with
  | nil =>
    intro c hstop rest1 rest2 imgs curSection seen
    rw [List.nil_append, List.nil_append,
      rebelemImagesGo_stop c hstop rest1 imgs curSection seen,
      rebelemImagesGo_stop c hstop rest2 imgs curSection seen]
  | cons x xs ih =>
    intro c hstop rest1 rest2 imgs curSection seen
    cases x with
    | textNode s ez =>
      show rebelemImagesGo (.textNode s ez :: (xs ++ c :: rest1)) _ _ _ = _
      simp only [rebelemImagesGo]
      exact ih c hstop rest1 rest2 imgs curSection seen
    | tag d =>
      show rebelemImagesGo (.tag d :: (xs ++ c :: rest1)) _ _ _ = _
      simp only [rebelemImagesGo]
      split
      · rfl
      · split
        · exact ih c hstop rest1 rest2 imgs _ seen
        · exact ih c hstop rest1 rest2 _ curSection _

theorem pyContains_append3 (P J T q : String)
    (h : subOccurs q.data J.data = true) : pyContains (P ++ J ++ T) q = true := by
  unfold pyContains
  have h1 := subOccurs_append_right q.data J.data T.data h
  have h2 := subOccurs_append_left q.data (J.data ++ T.data) P.data h1
  have he : (P ++ J ++ T).data = P.data ++ (J.data ++ T.data) := by
    rw [data_append_eq, data_append_eq, List.append_assoc]
  rw [he]
  exact h2

/-! ## Claim theorems -/

/-- C3 counterexample: the claim says no key is ever simultaneously in the
completed set and in the error map, and that a successful completion of a
previously errored key removes it from the errors first.  Starting from an
empty tracker, recording an error for key b and then marking b completed
(exactly what a resume-mode run does when a previously errored page
succeeds) leaves b in the completed set and in the error map at once:
mark_completed never touches the error map. -/
theorem claim_C3_counterexample :
    isCompleted (markCompleted (markError {} ("b") ("boom") ("t1")) ("b") 0) ("b") = true
    ∧ errorKeys (markCompleted (markError {} ("b") ("boom") ("t1")) ("b") 0) = ["b"] := by
  decide

/-- C3 amended: mark_completed never removes a key from the error map, so
the completed-errored exclusivity can be violated by a resume-mode retry;
what does hold is the retry-errors path: the dispatch-time clearing empties
the error entries of every retried key before re-attempt, so after clearing
and a successful completion the error map holds no key at all. -/
theorem claim_C3_amended :
    (∀ (t : ProgressTracker) (slug : String) (n : Nat),
      (markCompleted t slug n).errors = t.errors)
    ∧ (∀ t : ProgressTracker, (clearRetriedErrors t (errorKeys t)).errors = [])
    ∧ (∀ (t : ProgressTracker) (slug : String) (n : Nat),
      errorKeys (markCompleted (clearRetriedErrors t (errorKeys t)) slug n) = []) := by
  refine ⟨fun t slug n => rfl, fun t => clearRetriedErrors_all t, fun t slug n => ?_⟩
  show ((markCompleted (clearRetriedErrors t (errorKeys t)) slug n).errors).map _ = []
  rw [markCompleted_errors, clearRetriedErrors_all t]
  rfl

/-- C9: the claim says every mutating Progress Tracker operation is
internally synchronized so no update is lost.  The LITFL tracker's
docstring also advertises thread safety, but the class holds no lock, and
its counter updates are read-modify-write sequences.  Under the interleaved
schedule below, two concurrent mark_completed calls both read counter 0
before either writes, so the completed counter ends at 1 after two recorded
completions, while a serial schedule of the same two calls ends at 2. -/
theorem claim_C9_lost_update :
    runSchedule [0, 1, 0, 1, 0, 1]
        [markCompletedProg ("a"), markCompletedProg ("b")] {}
      = { completed := ["a", "b"], completedCtr := 1 }
    ∧ runSchedule [0, 0, 0, 1, 1, 1]
        [markCompletedProg ("a"), markCompletedProg ("b")] {}
      = { completed := ["a", "b"], completedCtr := 2 } := by
  decide

/-- C2 counterexample: the claim says the deduplicated manifest keeps each
key once, retains first occurrences, and preserves their relative order.
The LITFL discovery save writes the url list verbatim (a slug discovered by
two sitemaps stays twice in the manifest) and writes its slug list as
sorted(set(...)), so the saved order (alpha before beta) differs from the
first-occurrence order (beta before alpha). -/
theorem claim_C2_counterexample :
    (litflSaveDiscovery demoLitflUrls).slugs = ["alpha", "beta"]
    ∧ ((litflSaveDiscovery demoLitflUrls).urls.map (fun e => e.slug)).count ("beta") = 2
    ∧ demoLitflUrls.map (fun e => e.slug) = ["beta", "alpha", "beta"]
    ∧ (litflSaveDiscovery demoLitflUrls).slugs ≠ ["beta", "alpha"] := by
  decide

/-- C5 counterexample: the claim says any batch submission that receives
three rate-limit responses and then a success is retried three times and
succeeds, with only non-rate-limit, non-busy statuses failing immediately.
The ALiEM batch_import loop has no 429 branch: the first rate-limit
response makes the batch fail immediately, with no retry and no delay. -/
theorem claim_C5_counterexample :
    aliemBatchSubmit demoResp429 = (BatchOutcome.errored, [])
    ∧ demoResp429 0 = { status := 429, failedPrecondition := false } := by
  decide

/-- C6 counterexample: the claim says save writes atomically through a
temporary file and a rename, so an interrupted save leaves the old or the
new complete record.  Both bulk scrapers open the progress file directly
with mode w and stream json.dump into it, so a crash right after the open
leaves an empty file, which is neither the old nor the new record; the
crash-state set of the direct write differs from the atomic one. -/
theorem claim_C6_counterexample :
    "" ∈ (directWriteSave demoOldContent demoNewContent).crashStates
    ∧ "" ≠ demoOldContent
    ∧ "" ≠ demoNewContent
    ∧ (directWriteSave demoOldContent demoNewContent).crashStates
        ≠ (atomicSaveSpec demoOldContent demoNewContent).crashStates := by
  set_option maxRecDepth 4096 in decide

/-- C7 counterexample: the claim says a section containing a marker is cut
at the index of the first-appearing marker.  The flush scans the marker
list in priority order instead: in the text below, Written by (the last
listed marker) appears before WANT TO SUPPORT REBELEM? (the first listed),
yet the emitted content is cut at the latter and still contains the
earlier-positioned marker, while a cut at the first-appearing marker would
leave only the introduction line. -/
theorem claim_C7_counterexample :
    rebelemExtractSections [demoMarkerChild]
      = [{ heading := "Introduction", level := 2,
           content := "Intro.\nWritten by Alice", order := 1 }]
    ∧ pyContains ("Intro.\nWritten by Alice") ("Written by ") = true
    ∧ earliestMarkerCut demoMarkerText = "Intro."
    ∧ truncateAtMarker demoMarkerText ≠ earliestMarkerCut demoMarkerText := by
  decide

/-- C2 amended: the PMC discovery dedup keeps each PMCID exactly once,
retains for each key its first-occurring article (with the first-seen
journal classification) and preserves the relative order of first
occurrences (the result is a sublist of the input); two sitemap batches of
30 raw entries sharing 10 keys dedup to exactly 20 unique entries.  The
LITFL discovery save, by contrast, persists the raw url list and a
deduplicated slug list in sorted order, which covers exactly the
discovered slugs, each once, but not in first-occurrence order and without
per-entry classification. -/
theorem claim_C2_amended :
    (∀ articles : List PmcArticle,
      ((dedupArticles articles).map (fun a => a.pmcid)).Nodup
      ∧ List.Sublist (dedupArticles articles) articles
      ∧ ∀ a ∈ dedupArticles articles,
          articles.find? (fun x => x.pmcid == a.pmcid) = some a)
    ∧ (demoJournalA.length + demoJournalB.length = 30
      ∧ ((demoJournalA.map (fun a => a.pmcid)).filter
          (fun k => (demoJournalB.map (fun a => a.pmcid)).contains k)).length = 10
      ∧ (dedupArticles (demoJournalA ++ demoJournalB)).length = 20
      ∧ (dedupArticles (demoJournalA ++ demoJournalB)).find?
          (fun a => a.pmcid == "PMC06")
          = some { pmcid := "PMC06", journal := "Annals of Emergency Medicine" })
    ∧ (∀ urls : List LitflUrlEntry,
      (litflSaveDiscovery urls).slugs.Nodup
      ∧ ∀ s : String,
          s ∈ (litflSaveDiscovery urls).slugs ↔ s ∈ urls.map (fun e => e.slug)) := by
  refine ⟨?_, by decide, ?_⟩
  · intro articles
    exact ⟨dedupArticlesGo_nodupKeys [] articles,
      dedupArticlesGo_sublist [] articles,
      dedupArticlesGo_firstOcc [] articles⟩
  · intro urls
    exact ⟨litflSlugList_nodup urls, fun s => mem_litflSlugList urls s⟩

/-- C2 amended, witness: the dedup of the two demonstration batches keeps
the overlapping key PMC06 under its first-seen journal. -/
theorem claim_C2_amended_witness :
    (demoJournalA ++ demoJournalB).find?
        (fun x => x.pmcid == "PMC06")
      = some { pmcid := "PMC06", journal := "Annals of Emergency Medicine" } := by
  have h := (claim_C2_amended.1 (demoJournalA ++ demoJournalB)).2.2
    { pmcid := "PMC06", journal := "Annals of Emergency Medicine" } (by decide)
  simpa using h

/-- C4: in resume mode without force, the dispatched slug list is exactly
the manifest minus the already-completed keys; running the orchestrator a
second time in resume mode over the same manifest, with the same
deterministic per-slug outcome (no source changes), dispatches no
already-completed slug and adds nothing to the completed set beyond the
first run's output. -/
theorem claim_C4_resume_idempotence
    (outcome : String → Bool) (imageCount : String → Nat)
    (errMsg ts errMsg2 ts2 : String) (manifest : List String)
    (t1 : ProgressTracker) (d2 : List String)
    (ht1 : t1 = runBulk outcome imageCount errMsg ts manifest {})
    (hd2 : d2 = (planDispatch false true false manifest t1).1) :
    d2 = manifest.filter (fun s => !isCompleted t1 s)
    ∧ (∀ s ∈ d2, isCompleted t1 s = false)
    ∧ (runBulk outcome imageCount errMsg2 ts2 d2 t1).completed = t1.completed := by
  have hplan : d2 = manifest.filter (fun s => !isCompleted t1 s) := by
    rw [hd2]
    rfl
  refine ⟨hplan, ?_, ?_⟩
  · intro s hs
    rw [hplan] at hs
    have := (List.mem_filter.mp hs).2
    simpa using this
  · apply runBulk_allFail
    intro s hs
    rw [hplan] at hs
    rcases List.mem_filter.mp hs with ⟨hmem, hnc⟩
    have hnc2 : isCompleted t1 s = false := by simpa using hnc
    by_contra hout
    rw [Bool.not_eq_false] at hout
    have := runBulk_completes outcome imageCount errMsg ts s manifest {} hmem hout
    rw [← ht1] at this
    unfold isCompleted at hnc2
    rw [this] at hnc2
    cases hnc2

/-- C4 witness: one concrete resume-mode second run over a two-slug
manifest whose first slug succeeds and whose second slug keeps failing:
the second run dispatches only the failing slug and completes nothing
new. -/
theorem claim_C4_resume_idempotence_witness :
    (planDispatch false true false ["alpha", "beta"]
        (runBulk (fun s => s == "alpha") (fun _ => 0) ("boom") ("t1")
          ["alpha", "beta"] {})).1
      = ["alpha", "beta"].filter (fun s =>
          !isCompleted (runBulk (fun s => s == "alpha") (fun _ => 0) ("boom") ("t1")
            ["alpha", "beta"] {}) s)
    ∧ (runBulk (fun s => s == "alpha") (fun _ => 0) ("boom2") ("t2")
        (planDispatch false true false ["alpha", "beta"]
          (runBulk (fun s => s == "alpha") (fun _ => 0) ("boom") ("t1")
            ["alpha", "beta"] {})).1
        (runBulk (fun s => s == "alpha") (fun _ => 0) ("boom") ("t1")
          ["alpha", "beta"] {})).completed
      = (runBulk (fun s => s == "alpha") (fun _ => 0) ("boom") ("t1")
          ["alpha", "beta"] {}).completed := by
  have h := claim_C4_resume_idempotence (fun s => s == "alpha") (fun _ => 0)
    ("boom") ("t1") ("boom2") ("t2") ["alpha", "beta"]
    (runBulk (fun s => s == "alpha") (fun _ => 0) ("boom") ("t1")
      ["alpha", "beta"] {})
    ((planDispatch false true false ["alpha", "beta"]
      (runBulk (fun s => s == "alpha") (fun _ => 0) ("boom") ("t1")
        ["alpha", "beta"] {})).1) rfl rfl
  exact ⟨h.1, h.2.2⟩

/-- C1: the content hash of an extracted LITFL document is a deterministic
function of the noise-stripped, extracted section content list alone: two
extractions whose section-content lists agree produce documents with equal
content hashes (or both fail), whatever their slugs, titles, authors,
modification dates or scrape timestamps; in particular two extractions of
the same container always hash alike. -/
theorem claim_C1_contentHash_deterministic
    (slug1 title1 author1 : String) (dm1 : Option String) (now1 : String)
    (ch1 : List Child)
    (slug2 title2 author2 : String) (dm2 : Option String) (now2 : String)
    (ch2 : List Child)
    (hcontent : (litflExtractSections (litflStripNoise ch1)).map (fun s => s.content)
      = (litflExtractSections (litflStripNoise ch2)).map (fun s => s.content)) :
    (litflExtractPage slug1 title1 author1 dm1 now1 (some ch1)).map
        (fun d => d.contentHash)
      = (litflExtractPage slug2 title2 author2 dm2 now2 (some ch2)).map
        (fun d => d.contentHash) := by
  have hlen : (litflExtractSections (litflStripNoise ch1)).length
      = (litflExtractSections (litflStripNoise ch2)).length := by
    have := congrArg List.length hcontent
    simpa using this
  simp only [litflExtractPage]
  split
  · rename_i h1
    rw [if_pos (List.length_eq_zero.mp (by rw [← hlen, h1, List.length_nil]))]
  · rename_i h1
    rw [if_neg (fun hc => h1 (List.length_eq_zero.mp
      (by rw [hlen, hc, List.length_nil])))]
    simp only [Option.map_some']
    congr 1
    show contentHashFn (joinSectionContents (litflExtractSections (litflStripNoise ch1)))
      = contentHashFn (joinSectionContents (litflExtractSections (litflStripNoise ch2)))
    unfold joinSectionContents
    rw [hcontent]

/-- C1 witness: the demonstration container and its noisier copy strip to
the same section contents, so extractions with different slugs, titles,
authors, dates and timestamps produce the same content hash. -/
theorem claim_C1_contentHash_deterministic_witness :
    (litflExtractPage ("etomidate") ("Etomidate") ("Dr A") none
        ("2025-01-01T00:00:00Z") (some demoContainer)).map (fun d => d.contentHash)
      = (litflExtractPage ("etomidate-copy") ("Other Title") ("Dr B")
        (some ("2024-06-01")) ("2026-02-02T12:00:00Z")
        (some demoContainerNoisy)).map (fun d => d.contentHash) :=
  claim_C1_contentHash_deterministic ("etomidate") ("Etomidate") ("Dr A") none
    ("2025-01-01T00:00:00Z") demoContainer ("etomidate-copy") ("Other Title")
    ("Dr B") (some ("2024-06-01")) ("2026-02-02T12:00:00Z") demoContainerNoisy
    (by decide)

/-- C8: both extract-page pipelines guarantee that a returned document has
the noise-stripped extraction's nonempty section list and a content hash
computed from exactly that post-strip (for REBEL EM also post-truncation)
section text, and that a container whose stripped extraction yields no
section text produces the error result none rather than a document with
zero sections. -/
theorem claim_C8_success_guarantees
    (slug title author : String) (dm : Option String) (now : String)
    (ch : List Child) (slug2 title2 author2 now2 : String) (ch2 : List Child) :
    (∀ doc, litflExtractPage slug title author dm now (some ch) = some doc →
      doc.sections = litflExtractSections (litflStripNoise ch)
      ∧ doc.sections ≠ []
      ∧ doc.contentHash = contentHashFn (joinSectionContents
          (litflExtractSections (litflStripNoise ch))))
    ∧ (litflExtractSections (litflStripNoise ch) = [] →
        litflExtractPage slug title author dm now (some ch) = none)
    ∧ (∀ doc2, rebelemExtractPage slug2 title2 author2 now2 (some ch2) = some doc2 →
      doc2.sections = rebelemExtractSections (rebelemStripNoise ch2)
      ∧ doc2.sections ≠ []
      ∧ doc2.contentHash = contentHashFn (joinSectionContents
          (rebelemExtractSections (rebelemStripNoise ch2))))
    ∧ (rebelemExtractSections (rebelemStripNoise ch2) = [] →
        rebelemExtractPage slug2 title2 author2 now2 (some ch2) = none) := by
  refine ⟨?_, ?_, ?_, ?_⟩
  · intro doc hdoc
    simp only [litflExtractPage] at hdoc
    split at hdoc
    · cases hdoc
    · rename_i hne
      rcases Option.some_inj.mp hdoc with rfl
      exact ⟨rfl, hne, rfl⟩
  · intro hempty
    simp only [litflExtractPage]
    rw [if_pos hempty]
  · intro doc2 hdoc
    simp only [rebelemExtractPage] at hdoc
    split at hdoc
    · cases hdoc
    · rename_i hne
      rcases Option.some_inj.mp hdoc with rfl
      exact ⟨rfl, hne, rfl⟩
  · intro hempty
    simp only [rebelemExtractPage]
    rw [if_pos hempty]

/-- C8 witness: an all-noise LITFL container and a REBEL EM container that
opens with a citation marker both strip to no section text, and both
pipelines return the error result none on them. -/
theorem claim_C8_success_guarantees_witness :
    litflExtractPage ("noise-page") ("Noise") ("Dr A") none
        ("2025-01-01T00:00:00Z") (some demoAllNoise) = none
    ∧ rebelemExtractPage ("cite-page") ("Cite") ("Dr B")
        ("2025-01-01T00:00:00Z") (some [demoStopChild]) = none :=
  ⟨(claim_C8_success_guarantees ("noise-page") ("Noise") ("Dr A") none
      ("2025-01-01T00:00:00Z") demoAllNoise ("cite-page") ("Cite") ("Dr B")
      ("2025-01-01T00:00:00Z") [demoStopChild]).2.1 (by decide),
   (claim_C8_success_guarantees ("noise-page") ("Noise") ("Dr A") none
      ("2025-01-01T00:00:00Z") demoAllNoise ("cite-page") ("Cite") ("Dr B")
      ("2025-01-01T00:00:00Z") [demoStopChild]).2.2.2 (by decide)⟩

/-- C7 amended: section extraction truncates at the first marker in the
fixed marker-list priority order that occurs in the section text (an
earlier-positioned occurrence of a later-listed marker may remain), and no
sibling element at or after the first element that begins with a marker
contributes any section text or any extracted image; with a single marker
present, the content is cut exactly at that marker. -/
theorem claim_C7_amended :
    (∀ (pre : List Child) (c : Child), isStopTag c = true →
      ∀ rest1 rest2 : List Child,
        rebelemExtractSections (pre ++ c :: rest1)
          = rebelemExtractSections (pre ++ c :: rest2)
        ∧ rebelemExtractImages (pre ++ c :: rest1)
          = rebelemExtractImages (pre ++ c :: rest2))
    ∧ rebelemExtractSections [demoCiteChild, demoStopChild, demoTailChild]
      = [{ heading := "Introduction", level := 2,
           content := "Real content.", order := 1 }]
    ∧ rebelemExtractImages [demoCiteChild, demoStopChild, demoTailChild] = [] := by
  refine ⟨?_, by decide, by decide⟩
  intro pre c hstop rest1 rest2
  exact ⟨rebelemSections_discard pre c hstop rest1 rest2 [] ("Introduction") 2 [],
    rebelemImages_discard pre c hstop rest1 rest2 [] ("Introduction") []⟩

/-- C7 amended, witness: dropping the trailing sibling after the citation
marker element changes neither the extracted sections nor the extracted
images of the demonstration container. -/
theorem claim_C7_amended_witness :
    rebelemExtractSections ([demoCiteChild] ++ demoStopChild :: [demoTailChild])
      = rebelemExtractSections ([demoCiteChild] ++ demoStopChild :: [])
    ∧ rebelemExtractImages ([demoCiteChild] ++ demoStopChild :: [demoTailChild])
      = rebelemExtractImages ([demoCiteChild] ++ demoStopChild :: []) :=
  claim_C7_amended.1 [demoCiteChild] demoStopChild (by decide) [demoTailChild] []

/-- C10: over every content container, both section walks emit sections
whose order field equals their 1-based position in the returned list (so
sections appear in document order); every section carries either the
default heading Introduction at level 2 or the normalized text and numeric
level of a heading child that opened it, and every level lies between 2
and 6; and for both walks, content preceding the first heading is emitted
under the default heading Introduction at level 2 with order 1: for LITFL,
whenever a heading-free prefix accumulates nonempty text; for REBEL EM,
whenever the maximal prefix before the first heading or content-end break
accumulates text that survives marker truncation. -/
theorem claim_C10_section_invariants (children : List Child) :
    ordersOk (litflExtractSections children)
    ∧ (∀ s ∈ litflExtractSections children,
        (s.heading = "Introduction" ∧ s.level = 2)
          ∨ (s.heading, s.level) ∈ litflHeadingPairs children)
    ∧ (∀ s ∈ litflExtractSections children, 2 ≤ s.level ∧ s.level ≤ 6)
    ∧ (∀ pre rest : List Child, children = pre ++ rest →
        (∀ c ∈ pre, isHeadingChild c = false) →
        pyStrip (pyJoin ("\n") (litflPartsGo pre [])) ≠ "" →
        ∃ s, (litflExtractSections children).head? = some s
          ∧ s.heading = "Introduction" ∧ s.level = 2 ∧ s.order = 1)
    ∧ ordersOk (rebelemExtractSections children)
    ∧ (∀ s ∈ rebelemExtractSections children,
        (s.heading = "Introduction" ∧ s.level = 2)
          ∨ (s.heading, s.level) ∈ rebelemHeadingPairs children)
    ∧ (∀ s ∈ rebelemExtractSections children, 2 ≤ s.level ∧ s.level ≤ 6)
    ∧ (∀ pre rest : List Child, children = pre ++ rest →
        (∀ c ∈ pre, isRebelemBreak c = false) →
        (rest = [] ∨ ∃ c cs, rest = c :: cs ∧ isRebelemBreak c = true) →
        truncateAtMarker (pyStrip (pyJoin ("\n") (rebelemPartsGo pre []))) ≠ "" →
        ∃ s, (rebelemExtractSections children).head? = some s
          ∧ s.heading = "Introduction" ∧ s.level = 2 ∧ s.order = 1) := by
  have hlitflProv := litflSectionsGo_prov (litflHeadingPairs children) children
    [] ("Introduction") 2 [] (fun p hp => hp) (Or.inl ⟨rfl, rfl⟩)
    (fun s hs => by cases hs)
  have hrebProv := rebelemSectionsGo_prov (rebelemHeadingPairs children) children
    [] ("Introduction") 2 [] (fun p hp => hp) (Or.inl ⟨rfl, rfl⟩)
    (fun s hs => by cases hs)
  refine ⟨litflSectionsGo_ordersOk children [] _ 2 [] ordersOk_nil,
    hlitflProv, ?_, ?_,
    rebelemSectionsGo_ordersOk children [] _ 2 [] ordersOk_nil,
    hrebProv, ?_, ?_⟩
  · intro s hs
    rcases hlitflProv s hs with ⟨_, hlvl⟩ | hpair
    · rw [hlvl]
      exact ⟨by decide, by decide⟩
    · exact litflHeadingPairs_bounds children (s.heading, s.level) hpair
  · intro pre rest hsplit hfree hne
    rw [hsplit]
    show ∃ s, (litflSectionsGo (pre ++ rest) [] ("Introduction") 2 []).head? = some s ∧ _
    rw [litflSectionsGo_headingFree pre hfree rest [] ("Introduction") 2 []]
    exact litflIntro_head rest (litflPartsGo pre []) hne
  · intro s hs
    rcases hrebProv s hs with ⟨_, hlvl⟩ | hpair
    · rw [hlvl]
      exact ⟨by decide, by decide⟩
    · exact rebelemHeadingPairs_bounds children (s.heading, s.level) hpair
  · intro pre rest hsplit hfree hbrk htr
    rw [hsplit]
    show ∃ s, (rebelemSectionsGo (pre ++ rest) [] ("Introduction") 2 []).head? = some s ∧ _
    rw [rebelemSectionsGo_breakFree pre hfree rest [] ("Introduction") 2 []]
    exact rebelemIntro_head rest (rebelemPartsGo pre []) htr hbrk

/-- C10 witness: on the LITFL demonstration container, whose first child
is a heading-free text node with content, and on the REBEL EM container,
whose pre-heading text survives marker truncation, the first emitted
section is the Introduction section at level 2 with order 1. -/
theorem claim_C10_section_invariants_witness :
    (∃ s, (litflExtractSections demoContainer).head? = some s
      ∧ s.heading = "Introduction" ∧ s.level = 2 ∧ s.order = 1)
    ∧ (∃ s, (rebelemExtractSections demoRebelemContainer).head? = some s
      ∧ s.heading = "Introduction" ∧ s.level = 2 ∧ s.order = 1) :=
  ⟨(claim_C10_section_invariants demoContainer).2.2.2.1
    [Child.textNode (" Overview of the topic. ") false]
    [Child.tag { name := "h2", getText := "Management" },
     Child.tag { name := "p", cleanText := "Give oxygen.\nTitrate to response." }]
    (by decide) (by decide) (by decide),
   (claim_C10_section_invariants demoRebelemContainer).2.2.2.2.2.2.2
    [Child.textNode (" Background information. ") false]
    [Child.tag { name := "h3", getText := "What They Did:" },
     Child.tag { name := "p", cleanText := "Randomized 100 patients." }]
    (by decide) (by decide)
    (Or.inr ⟨Child.tag { name := "h3", getText := "What They Did:" },
      [Child.tag { name := "p", cleanText := "Randomized 100 patients." }],
      rfl, by decide⟩)
    (by decide)⟩

/-- C5 amended: the LITFL indexer submission retries rate-limit and
corpus-busy responses with strictly increasing exponential delays and a
five-attempt bound: three 429 responses followed by a success give exactly
three retries with delays 2, 4, 8 and then success; a response sequence
with no success makes it return failure rather than retry forever; and any
first response other than success, 429 or a FAILED_PRECONDITION 400 fails
at once with no retry.  The ALiEM batch_import loop, however, retries only
corpus-busy responses, with delays capped at 90 seconds (3, 6, 12, 24, 48,
90, 90, 90, not strictly increasing), treats a 429 as an immediate
permanent batch error, and falls through silently when its eight attempts
are exhausted. -/
theorem claim_C5_amended :
    (litflImportSubmit demoResp429 = (true, [2, 4, 8])
      ∧ List.Chain' (· < ·) [2, 4, 8])
    ∧ (∀ resp : Nat → ImportResp,
        (∀ i, ((resp i).status = 200 ∨ (resp i).status = 201) → False) →
        (litflImportSubmit resp).1 = false)
    ∧ (∀ resp : Nat → ImportResp,
        (resp 0).status ≠ 200 → (resp 0).status ≠ 201 → (resp 0).status ≠ 429 →
        ¬((resp 0).status = 400 ∧ (resp 0).failedPrecondition = true) →
        litflImportSubmit resp = (false, []))
    ∧ aliemBatchSubmit demoRespBusy
      = (BatchOutcome.exhausted, [3, 6, 12, 24, 48, 90, 90, 90])
    ∧ aliemBatchSubmit demoResp429 = (BatchOutcome.errored, []) := by
  refine ⟨⟨by decide, by simp [List.chain'_cons]⟩, ?_, ?_, by decide, by decide⟩
  · intro resp h
    exact litflImportGo_neverSucceeds resp h 5 0
  · intro resp h200 h201 h429 hbusy
    show litflImportGo resp 5 0 = (false, [])
    unfold litflImportGo
    dsimp only
    rw [if_neg (by simp [h200, h201]), if_neg h429,
      if_neg (by
        simp only [Bool.and_eq_true, decide_eq_true_eq]
        intro hc
        exact hbusy ⟨hc.1, hc.2⟩)]

/-- C5 amended, witness: a submission whose first response is a plain
server error fails immediately with no retries and no delays. -/
theorem claim_C5_amended_witness :
    litflImportSubmit demoResp500 = (false, []) :=
  claim_C5_amended.2.2.1 demoResp500 (by decide) (by decide) (by decide)
    (by decide)

/-- C6 amended: save serializes the full progress state, stats and all
completed keys included (every completed slug appears, quoted, in the
written record), but writes it directly over the progress file with no
temporary file and no rename: an uninterrupted save leaves exactly the new
record, while a crash mid-write can leave the old record or any prefix of
the new one, including the empty truncated file. -/
theorem claim_C6_amended (t : ProgressTracker) (lastSaved old : String) :
    (directWriteSave old (renderProgress t lastSaved)).final
      = renderProgress t lastSaved
    ∧ old ∈ (directWriteSave old (renderProgress t lastSaved)).crashStates
    ∧ (∀ s ∈ (directWriteSave old (renderProgress t lastSaved)).crashStates,
        s = old ∨ s.data.isPrefixOf (renderProgress t lastSaved).data = true)
    ∧ (∀ slug ∈ t.completed,
        pyContains (renderProgress t lastSaved) ("\"" ++ slug ++ "\"") = true) := by
  refine ⟨rfl, List.mem_cons_self _ _, ?_, ?_⟩
  · intro s hs
    rcases List.mem_cons.mp hs with rfl | hs2
    · exact Or.inl rfl
    · rcases List.mem_map.mp hs2 with ⟨k, _, hk⟩
      refine Or.inr ?_
      rw [← hk]
      rw [List.isPrefixOf_iff_prefix]
      exact List.take_prefix k _
  · intro slug hslug
    have hmem : ("\"" ++ slug ++ "\"") ∈ (sortStrings t.completed).map
        (fun s => "\"" ++ s ++ "\"") :=
      List.mem_map.mpr ⟨slug, (sortStrings_perm t.completed).mem_iff.mpr hslug, rfl⟩
    have hjoin := subOccurs_mem_pyJoin (", ") ("\"" ++ slug ++ "\"") _ hmem
    unfold renderProgress
    exact pyContains_append3 _ _ _ _ hjoin

/-- C6 amended, witness: after the demonstration save, both completed
slugs appear quoted in the written record, and the empty crash state is a
prefix of the new record. -/
theorem claim_C6_amended_witness :
    pyContains (renderProgress demoTrackerB ("2025-01-01T00:05:00Z"))
        ("\"" ++ "beta" ++ "\"") = true
    ∧ (directWriteSave demoOldContent
        (renderProgress demoTrackerB ("2025-01-01T00:05:00Z"))).final
      = renderProgress demoTrackerB ("2025-01-01T00:05:00Z") :=
  ⟨(claim_C6_amended demoTrackerB ("2025-01-01T00:05:00Z") demoOldContent).2.2.2
      ("beta") (by decide),
   (claim_C6_amended demoTrackerB ("2025-01-01T00:05:00Z") demoOldContent).1⟩

end EmApp
